import Mathlib

/-
  Verification of the encoding-detection / transcoding / growable-buffer core of
  the portable_std UTF-16 string class (src/std/string.h).

  Shallow embedding conventions:
  - A byte sequence is a List Nat with entries < 256 (the `unsigned char` view).
  - The 16-bit code units stored in the string are Lists of Nat holding the
    unsigned 16-bit bit pattern of the stored `data_type` (signed short) values.
  - The C length sentinel `-1` (ssize_type) is modeled as `Option Nat` with
    `none` standing for -1 (scan to the 0 terminator).
  - `throw std::runtime_error(...)` sites are modeled by an error value; the
    message-to-kind mapping follows section 7 of the specification:
      "Incomplete UTF-8 sequence" / "Invalid UTF-8 sequence" /
      "Invalid UTF-8 start byte"                 -> malformedSequence
      "Incomplete surrogate pair" / "Invalid low surrogate" -> invalidSurrogate
      "Invalid Unicode code point"               -> invalidCodepoint
      std::out_of_range                          -> outOfRange
  - Reads past the supplied byte window (possible in the source for odd-length
    UTF-16 input or non-multiple-of-4 UTF-32 input, where the C code indexes
    beyond len_in) are undefined behaviour in the source; the model reads such
    bytes as 0, with a comment at each spot.  No claim below exercises them.
-/

namespace PStd

/-- Error kinds of the specification taxonomy, standing for the runtime_error
throws and the out_of_range throws in string.h. -/
inductive Err where
  | malformedSequence
  | invalidSurrogate
  | invalidCodepoint
  | outOfRange
deriving DecidableEq

/-- The private enum string::Encoding (string.h lines 833-841). -/
inductive Encoding where
  | ASCII
  | UTF8
  | UTF16_LE
  | UTF16_BE
  | UTF32_LE
  | UTF32_BE
deriving DecidableEq

/-- Observable state of a std::string object: whether the data pointer is null,
the stored code units (exactly the first `len` slots of the backing array; slots
between len and capacity are not observable through the bounds-checked
interface), and `_str_capacity`. -/
structure Str where
  ptrNull : Bool
  units : List Nat
  cap : Nat
deriving DecidableEq

/-- Member `len` of the string: number of code units in use. -/
def Str.length (s : Str) : Nat := s.units.length

/-- C strlen over the modeled byte window: the number of bytes before the first
0 byte. -/
def strlen (b : List Nat) : Nat := (b.takeWhile (fun x => x != 0)).length

/-- The capacity produced by string::ensure_capacity (lines 1257-1275):
when the requested size exceeds the current capacity, the capacity doubles once
(or starts at 8 from 0) and, if the doubled value is still short, jumps to
exactly the requested size; otherwise the capacity is unchanged. -/
def ensure_capacity_cap (cap req : Nat) : Nat :=
  if req > cap then
    let n := if cap = 0 then 8 else cap * 2
    if n < req then req else n
  else cap

/-- string::ensure_capacity acting on the whole state: on growth a new array is
allocated (the data pointer becomes non-null) and the stored units are copied
over. -/
def Str.ensure_capacity (s : Str) (req : Nat) : Str :=
  if req > s.cap then
    { s with cap := ensure_capacity_cap s.cap req, ptrNull := false }
  else s

/-- Cap update helper for the decode loops: the loops call ensure_capacity
repeatedly, so the final capacity is at least the starting one and the pointer
is non-null whenever any growth happened. -/
def Str.withCap (s : Str) (c : Nat) : Str :=
  { s with cap := c, ptrNull := if c > s.cap then false else s.ptrNull }

/-- Value stored by `ptr[len++] = static_cast<data_type>(str[i])` on the ASCII
path (line 1033): `str` is const char*, so a byte ≥ 0x80 is a negative char and
sign-extends into the 16-bit unit (every other decode path casts through
unsigned char first; this one does not). -/
def ascii_ext (v : Nat) : Nat := if v < 0x80 then v else 0xFF00 + v

/-- string::detect_utf8_heuristic (lines 981-1015), as a fold over the byte
window with the running counters utf8_sequence_count and
expected_continuation_bytes.  Note the loop can end with
expected_continuation_bytes > 0 (a truncated final sequence) without failing. -/
def detect_utf8_heuristic_go (bytes : List Nat) (count expected : Nat) : Encoding :=
  match bytes with
  | [] => if count > 0 then .UTF8 else .ASCII
  | byte :: rest =>
    if expected = 0 then
      if byte ≤ 0x7F then detect_utf8_heuristic_go rest count 0
      else if byte &&& 0xE0 = 0xC0 then detect_utf8_heuristic_go rest (count + 1) 1
      else if byte &&& 0xF0 = 0xE0 then detect_utf8_heuristic_go rest (count + 1) 2
      else if byte &&& 0xF8 = 0xF0 then detect_utf8_heuristic_go rest (count + 1) 3
      else .ASCII
    else
      if byte &&& 0xC0 ≠ 0x80 then .ASCII
      else detect_utf8_heuristic_go rest count (expected - 1)

/-- string::detect_utf8_heuristic on the first n bytes. -/
def detect_utf8_heuristic (b : List Nat) (n : Nat) : Encoding :=
  detect_utf8_heuristic_go (b.take n) 0 0

/-- string::detect_encoding (lines 943-979).  The checks run in source order:
length < 2 gives ASCII, then the UTF-8 BOM, then the two UTF-16 BOMs, then the
two UTF-32 BOMs, then the UTF-8 heuristic.  Because the UTF-16 checks precede
the UTF-32 checks, a window starting FF FE 00 00 is classified UTF16_LE. -/
def detect_encoding (b : List Nat) (len_in : Option Nat) : Encoding :=
  let n := match len_in with | none => strlen b | some m => m
  if n < 2 then .ASCII
  else if 3 ≤ n ∧ b.getD 0 0 = 0xEF ∧ b.getD 1 0 = 0xBB ∧ b.getD 2 0 = 0xBF then .UTF8
  else if b.getD 0 0 = 0xFE ∧ b.getD 1 0 = 0xFF then .UTF16_BE
  else if b.getD 0 0 = 0xFF ∧ b.getD 1 0 = 0xFE then .UTF16_LE
  else if 4 ≤ n ∧ b.getD 0 0 = 0x00 ∧ b.getD 1 0 = 0x00 ∧ b.getD 2 0 = 0xFE ∧ b.getD 3 0 = 0xFF then .UTF32_BE
  else if 4 ≤ n ∧ b.getD 0 0 = 0xFF ∧ b.getD 1 0 = 0xFE ∧ b.getD 2 0 = 0x00 ∧ b.getD 3 0 = 0x00 then .UTF32_LE
  else detect_utf8_heuristic b n

/-- Loop body of string::convert_utf8_to_utf16 (lines 1059-1136).  `bytes` is
the window from the loop index i onward, `acc` holds the units written so far
(ptr[0..utf16_index)) and `cap` the current capacity; the result is
(error?, units written, capacity).  The source truncation guard i + k >= len_in
is the test rest.length < k here, and str[i + k] is rest.getD (k - 1) 0.  On
error the member `len` has not been touched (it is assigned only after the
loop), so the caller records length 0.  Each loop iteration consumes at least
one byte, so a fuel of the window length bounds the iteration count; the fuel
argument exists only to exhibit termination and is never exhausted. -/
def convert_utf8_go (fuel : Nat) (bytes acc : List Nat) (cap : Nat) : Option Err × List Nat × Nat :=
  match fuel with
  | 0 => (none, acc, cap)
  | fuel + 1 =>
    match bytes with
    | [] => (none, acc, cap)
    | b1 :: rest =>
      if b1 < 0x80 then
        convert_utf8_go fuel rest (acc ++ [b1]) (ensure_capacity_cap cap (acc.length + 1))
      else if b1 &&& 0xE0 = 0xC0 then
        if rest.length < 1 then (some .malformedSequence, acc, cap)
        else
          let b2 := rest.getD 0 0
          if b2 &&& 0xC0 ≠ 0x80 then (some .malformedSequence, acc, cap)
          else
            let cp := ((b1 &&& 0x1F) <<< 6) ||| (b2 &&& 0x3F)
            convert_utf8_go fuel (rest.drop 1) (acc ++ [cp]) (ensure_capacity_cap cap (acc.length + 1))
      else if b1 &&& 0xF0 = 0xE0 then
        if rest.length < 2 then (some .malformedSequence, acc, cap)
        else
          let b2 := rest.getD 0 0
          let b3 := rest.getD 1 0
          if b2 &&& 0xC0 ≠ 0x80 ∨ b3 &&& 0xC0 ≠ 0x80 then (some .malformedSequence, acc, cap)
          else
            let cp := (((b1 &&& 0x0F) <<< 12) ||| ((b2 &&& 0x3F) <<< 6)) ||| (b3 &&& 0x3F)
            convert_utf8_go fuel (rest.drop 2) (acc ++ [cp]) (ensure_capacity_cap cap (acc.length + 1))
      else if b1 &&& 0xF8 = 0xF0 then
        if rest.length < 3 then (some .malformedSequence, acc, cap)
        else
          let b2 := rest.getD 0 0
          let b3 := rest.getD 1 0
          let b4 := rest.getD 2 0
          if b2 &&& 0xC0 ≠ 0x80 ∨ b3 &&& 0xC0 ≠ 0x80 ∨ b4 &&& 0xC0 ≠ 0x80 then
            (some .malformedSequence, acc, cap)
          else
            let cp := ((((b1 &&& 0x07) <<< 18) ||| ((b2 &&& 0x3F) <<< 12)) ||| ((b3 &&& 0x3F) <<< 6)) ||| (b4 &&& 0x3F)
            -- code_point -= 0x10000 on a 32-bit unsigned int
            let cp2 := (cp + 0xFFFF0000) % 0x100000000
            convert_utf8_go fuel (rest.drop 3)
              (acc ++ [0xD800 ||| ((cp2 >>> 10) &&& 0x3FF), 0xDC00 ||| (cp2 &&& 0x3FF)])
              (ensure_capacity_cap cap (acc.length + 2))
      else (some .malformedSequence, acc, cap)

/-- Loop body of string::convert_utf16le_to_utf16 (lines 1138-1166).  Unlike
the UTF-8 path this loop commits units through `ptr[len++]`, so on error the
units written so far remain observable.  With an odd window length the source
reads str[i + 1] one byte past the window (undefined); the model reads 0
there, via getD.  Fuel as in convert_utf8_go. -/
def convert_utf16le_go (fuel : Nat) (bytes acc : List Nat) (cap : Nat) : Option Err × List Nat × Nat :=
  match fuel with
  | 0 => (none, acc, cap)
  | fuel + 1 =>
    match bytes with
    | [] => (none, acc, cap)
    | b0 :: rest =>
      let u := ((rest.getD 0 0) <<< 8) ||| b0
      let cap1 := ensure_capacity_cap cap (acc.length + 1)
      let acc1 := acc ++ [u]
      if 0xD800 ≤ u ∧ u ≤ 0xDBFF then
        if rest.length < 2 then (some .invalidSurrogate, acc1, cap1)
        else
          let low := ((rest.getD 2 0) <<< 8) ||| (rest.getD 1 0)
          if low < 0xDC00 ∨ low > 0xDFFF then (some .invalidSurrogate, acc1, cap1)
          else
            convert_utf16le_go fuel (rest.drop 3) (acc1 ++ [low])
              (ensure_capacity_cap cap1 (acc1.length + 1))
      else convert_utf16le_go fuel (rest.drop 1) acc1 cap1

/-- Loop body of string::convert_utf16be_to_utf16 (lines 1168-1196); identical
to the LE loop with the two bytes of each unit swapped. -/
def convert_utf16be_go (fuel : Nat) (bytes acc : List Nat) (cap : Nat) : Option Err × List Nat × Nat :=
  match fuel with
  | 0 => (none, acc, cap)
  | fuel + 1 =>
    match bytes with
    | [] => (none, acc, cap)
    | b0 :: rest =>
      let u := (b0 <<< 8) ||| (rest.getD 0 0)
      let cap1 := ensure_capacity_cap cap (acc.length + 1)
      let acc1 := acc ++ [u]
      if 0xD800 ≤ u ∧ u ≤ 0xDBFF then
        if rest.length < 2 then (some .invalidSurrogate, acc1, cap1)
        else
          let low := ((rest.getD 1 0) <<< 8) ||| (rest.getD 2 0)
          if low < 0xDC00 ∨ low > 0xDFFF then (some .invalidSurrogate, acc1, cap1)
          else
            convert_utf16be_go fuel (rest.drop 3) (acc1 ++ [low])
              (ensure_capacity_cap cap1 (acc1.length + 1))
      else convert_utf16be_go fuel (rest.drop 1) acc1 cap1

/-- Loop body of string::convert_utf32le_to_utf16 (lines 1198-1225).  With a
window length that is not a multiple of 4 the source reads past the window
(undefined); the model reads 0 for the missing bytes, via getD.  Fuel as in
convert_utf8_go. -/
def convert_utf32le_go (fuel : Nat) (bytes acc : List Nat) (cap : Nat) : Option Err × List Nat × Nat :=
  match fuel with
  | 0 => (none, acc, cap)
  | fuel + 1 =>
    match bytes with
    | [] => (none, acc, cap)
    | b0 :: rest =>
      let cp := ((b0 ||| ((rest.getD 0 0) <<< 8)) ||| ((rest.getD 1 0) <<< 16)) |||
        ((rest.getD 2 0) <<< 24)
      if cp ≤ 0xFFFF then
        convert_utf32le_go fuel (rest.drop 3) (acc ++ [cp]) (ensure_capacity_cap cap (acc.length + 1))
      else if cp ≤ 0x10FFFF then
        let cp := cp - 0x10000
        convert_utf32le_go fuel (rest.drop 3)
          (acc ++ [0xD800 ||| ((cp >>> 10) &&& 0x3FF), 0xDC00 ||| (cp &&& 0x3FF)])
          (ensure_capacity_cap cap (acc.length + 2))
      else (some .invalidCodepoint, acc, cap)

/-- Loop body of string::convert_utf32be_to_utf16 (lines 1227-1255). -/
def convert_utf32be_go (fuel : Nat) (bytes acc : List Nat) (cap : Nat) : Option Err × List Nat × Nat :=
  match fuel with
  | 0 => (none, acc, cap)
  | fuel + 1 =>
    match bytes with
    | [] => (none, acc, cap)
    | b0 :: rest =>
      let cp := (((b0 <<< 24) ||| ((rest.getD 0 0) <<< 16)) ||| ((rest.getD 1 0) <<< 8)) |||
        rest.getD 2 0
      if cp ≤ 0xFFFF then
        convert_utf32be_go fuel (rest.drop 3) (acc ++ [cp]) (ensure_capacity_cap cap (acc.length + 1))
      else if cp ≤ 0x10FFFF then
        let cp := cp - 0x10000
        convert_utf32be_go fuel (rest.drop 3)
          (acc ++ [0xD800 ||| ((cp >>> 10) &&& 0x3FF), 0xDC00 ||| (cp &&& 0x3FF)])
          (ensure_capacity_cap cap (acc.length + 2))
      else (some .invalidCodepoint, acc, cap)

/-- string::convert_utf8_to_utf16 on the state: the loop writes into the array
and assigns `len = utf16_index` only at the end, so on error the observable
length stays 0 (convert_to_utf16 has already cleared it). -/
def convert_utf8_to_utf16 (s : Str) (w : List Nat) : Str × Option Err :=
  match convert_utf8_go w.length w [] s.cap with
  | (none, us, c) => ({ s.withCap c with units := us }, none)
  | (some e, _, c) => ({ s.withCap c with units := [] }, some e)

/-- string::convert_utf16le_to_utf16 on the state: first ensure_capacity of
len_in / 2, then the loop, which commits each unit through ptr[len++], so on
error the partial content is observable. -/
def convert_utf16le_to_utf16 (s : Str) (w : List Nat) : Str × Option Err :=
  let s1 := s.ensure_capacity (w.length / 2)
  match convert_utf16le_go w.length w [] s1.cap with
  | (none, us, c) => ({ s1.withCap c with units := us }, none)
  | (some e, us, c) => ({ s1.withCap c with units := us }, some e)

/-- string::convert_utf16be_to_utf16 on the state. -/
def convert_utf16be_to_utf16 (s : Str) (w : List Nat) : Str × Option Err :=
  let s1 := s.ensure_capacity (w.length / 2)
  match convert_utf16be_go w.length w [] s1.cap with
  | (none, us, c) => ({ s1.withCap c with units := us }, none)
  | (some e, us, c) => ({ s1.withCap c with units := us }, some e)

/-- string::convert_utf32le_to_utf16 on the state. -/
def convert_utf32le_to_utf16 (s : Str) (w : List Nat) : Str × Option Err :=
  let s1 := s.ensure_capacity (w.length / 4 * 2)
  match convert_utf32le_go w.length w [] s1.cap with
  | (none, us, c) => ({ s1.withCap c with units := us }, none)
  | (some e, us, c) => ({ s1.withCap c with units := us }, some e)

/-- string::convert_utf32be_to_utf16 on the state. -/
def convert_utf32be_to_utf16 (s : Str) (w : List Nat) : Str × Option Err :=
  let s1 := s.ensure_capacity (w.length / 4 * 2)
  match convert_utf32be_go w.length w [] s1.cap with
  | (none, us, c) => ({ s1.withCap c with units := us }, none)
  | (some e, us, c) => ({ s1.withCap c with units := us }, some e)

/-- string::convert_to_utf16 (lines 1017-1057): resolve the true length,
ensure_capacity(true_len), set len = 0, then dispatch on the encoding.  The
ASCII branch iterates `for (ssize_type i = 0; i < len_in; ++i)` over the RAW
len_in argument, so with the -1 sentinel the loop body never runs and the
string ends up empty. -/
def convert_to_utf16 (s : Str) (b : List Nat) (len_in : Option Nat) (e : Encoding) :
    Str × Option Err :=
  let true_len := match len_in with | none => strlen b | some m => m
  let s1 := Str.ensure_capacity s true_len
  let s2 : Str := { s1 with units := [] }
  match e with
  | .ASCII =>
    match len_in with
    | none => (s2, none)
    | some n => ({ s2 with units := (b.take n).map ascii_ext }, none)
  | .UTF8 => convert_utf8_to_utf16 s2 (b.take true_len)
  | .UTF16_LE => convert_utf16le_to_utf16 s2 (b.take true_len)
  | .UTF16_BE => convert_utf16be_to_utf16 s2 (b.take true_len)
  | .UTF32_LE => convert_utf32le_to_utf16 s2 (b.take true_len)
  | .UTF32_BE => convert_utf32be_to_utf16 s2 (b.take true_len)

/-- The constructor string(const char *str, ssize_type len_in = -1)
(lines 184-188): detect the encoding, then convert.  Members start as
ptr = nullptr, len = 0, capacity = 0.  The second component is the error thrown
out of the constructor, if any. -/
def string_from_bytes (b : List Nat) (len_in : Option Nat) : Str × Option Err :=
  convert_to_utf16 ⟨true, [], 0⟩ b len_in (detect_encoding b len_in)

/-- The default constructor string() (lines 177-182): ensure_capacity(1) then
write a terminator at index 0 (not counted in len). -/
def default_string : Str :=
  Str.ensure_capacity ⟨true, [], 0⟩ 1

/-- The constructor string(const_type str, ssize_type len_in = -1)
(lines 160-175): length from the 0 terminator or explicit, ensure_capacity,
memcpy. -/
def from_units (lit : List Nat) (len_in : Option Nat) : Str :=
  let n := match len_in with | none => strlen lit | some m => m
  let s := Str.ensure_capacity ⟨true, [], 0⟩ n
  { s with units := lit.take n }

/-- The copy constructor string(const string &) (lines 190-199): copies len and
_str_capacity unconditionally but allocates only when len > 0, so a copy of a
string with len = 0 and capacity > 0 has a null pointer with a nonzero
capacity. -/
def copy (other : Str) : Str :=
  { ptrNull := other.units.length = 0, units := other.units, cap := other.cap }

/-- The move constructor (lines 201-209): the target takes the members, the
source is left with ptr = nullptr, len = 0, capacity = 0. -/
def move (other : Str) : Str × Str :=
  (⟨other.ptrNull, other.units, other.cap⟩, ⟨true, [], 0⟩)

/-- string::push_back / string::append(data_type) (lines 410-414, 464-469). -/
def append_unit (s : Str) (ch : Nat) : Str :=
  let s1 := s.ensure_capacity (s.units.length + 1)
  { s1 with units := s1.units ++ [ch] }

/-- string::append(const string &) (lines 451-457): grow to len + other.len,
copy the other units at position len. -/
def append_str (s other : Str) : Str :=
  let s1 := s.ensure_capacity (s.units.length + other.units.length)
  { s1 with units := s1.units ++ other.units }

/-- string::append(const char *) (lines 439-444): detect_encoding(str, -1) then
convert_to_utf16(str, -1, encoding) on the SAME string object, which clears len
and decodes from scratch instead of appending. -/
def append_cstr (s : Str) (b : List Nat) : Str × Option Err :=
  convert_to_utf16 s b none (detect_encoding b none)

/-- string::insert(pos, const string &) (lines 487-510): out_of_range when
pos > len, otherwise grow, shift [pos, len) right (the back-to-front loops) and
write the new units into the gap. -/
def insert (s : Str) (pos : Nat) (str : Str) : Str × Option Err :=
  if pos > s.units.length then (s, some .outOfRange)
  else
    let s1 := s.ensure_capacity (s.units.length + str.units.length)
    ({ s1 with units := s1.units.take pos ++ str.units ++ s1.units.drop pos }, none)

/-- The not-found sentinel string::npos = static_cast<size_type>(-1)
(line 158). -/
def npos : Nat := 2 ^ 64 - 1

/-- string::erase(pos, n) (lines 560-579): out_of_range when pos > len, clamp n
to len - pos, shift [pos + n, len) left. -/
def erase (s : Str) (pos n : Nat) : Str × Option Err :=
  if pos > s.units.length then (s, some .outOfRange)
  else
    let m := if n = npos ∨ pos + n > s.units.length then s.units.length - pos else n
    ({ s with units := s.units.take pos ++ s.units.drop (pos + m) }, none)

/-- string::clear (lines 796-802): delete, null pointer, len = 0, capacity = 0. -/
def clear (_s : Str) : Str := ⟨true, [], 0⟩

/-- string::reserve (lines 343-346). -/
def reserve (s : Str) (n : Nat) : Str := s.ensure_capacity n

/-- string::shrink_to_fit (lines 424-431): sets capacity = len and always
allocates a fresh array of that size (operator new[] returns a non-null pointer
even for size 0), so after shrinking an empty string the capacity is 0 with a
non-null pointer. -/
def shrink_to_fit (s : Str) : Str :=
  { ptrNull := false, units := s.units, cap := s.units.length }

/-- string::resize(new_size) (lines 433-437): ensure_capacity then len is set
directly; when the string grows the new slots are uninitialized storage
(modeled as 0). -/
def resize (s : Str) (n : Nat) : Str :=
  let s1 := s.ensure_capacity n
  { s1 with units := s1.units.take n ++ List.replicate (n - s1.units.length) 0 }

/-- string::resize(n, ch) (lines 804-816): when growing, reserve then push_back
ch until len = n; otherwise plain resize. -/
def resize_fill (s : Str) (n : Nat) (ch : Nat) : Str :=
  if n > s.units.length then
    let s1 := reserve s n
    { s1 with units := s1.units ++ List.replicate (n - s1.units.length) ch }
  else resize s n

/-- string::pop_back (lines 416-422). -/
def pop_back (s : Str) : Str :=
  if s.units.length > 0 then { s with units := s.units.take (s.units.length - 1) } else s

/-- Scan loop of string::find: try each start index i while
i ≤ len - str.len, i.e. while the needle still fits in the remaining suffix.
When the needle is longer than the haystack the source underflows the unsigned
subtraction len - str.len and scans out of bounds (undefined); the model
returns npos, the only value an in-bounds run could produce. -/
def find_go (hcur needle : List Nat) (i : Nat) : Nat :=
  if hcur.length < needle.length then npos
  else if needle.isPrefixOf hcur then i
  else
    match hcur with
    | [] => npos
    | _ :: t => find_go t needle (i + 1)

/-- string::find(str, pos) (lines 581-603): npos when pos ≥ len, pos itself
when the needle is empty, otherwise the naive forward scan. -/
def find (hay needle : List Nat) (pos : Nat) : Nat :=
  if pos ≥ hay.length then npos
  else if needle.length = 0 then pos
  else find_go (hay.drop pos) needle pos

/-- One pass of the encoder in string::throw_away (lines 707-776) over the
stored code units: 1 byte below 0x80, 2 bytes below 0x800, a high surrogate
recombines with a following low surrogate into a 4-byte sequence, an unpaired
high or lone low surrogate is silently skipped, and everything else emits
3 bytes.  A high surrogate as the very last unit makes the source read
ptr[len], one slot past the content (undefined); the model reads 0 there,
which falls in the skip branch. -/
def throw_away_go (fuel : Nat) (units : List Nat) : List Nat :=
  match fuel with
  | 0 => []
  | fuel + 1 =>
    match units with
    | [] => []
    | u :: rest =>
      if u < 0x80 then u :: throw_away_go fuel rest
      else if u < 0x800 then
        (0xC0 ||| (u >>> 6)) :: (0x80 ||| (u &&& 0x3F)) :: throw_away_go fuel rest
      else if 0xD800 ≤ u ∧ u ≤ 0xDBFF then
        -- low_surrogate = ptr[i]: one slot past the content when rest is empty
        -- (undefined in the source); modeled as 0, which falls in the skip branch
        let low := rest.getD 0 0
        if 0xDC00 ≤ low ∧ low ≤ 0xDFFF then
          let cp := (0x10000 + ((u - 0xD800) <<< 10)) + (low - 0xDC00)
          (0xF0 ||| (cp >>> 18)) :: (0x80 ||| ((cp >>> 12) &&& 0x3F)) ::
            (0x80 ||| ((cp >>> 6) &&& 0x3F)) :: (0x80 ||| (cp &&& 0x3F)) ::
            throw_away_go fuel (rest.drop 1)
        else throw_away_go fuel rest
      else if 0xDC00 ≤ u ∧ u ≤ 0xDFFF then throw_away_go fuel rest
      else
        (0xE0 ||| (u >>> 12)) :: (0x80 ||| ((u >>> 6) &&& 0x3F)) :: (0x80 ||| (u &&& 0x3F)) ::
          throw_away_go fuel rest

/-- Encoder entry: every iteration of the source loop consumes at least one
unit, so a fuel of len bounds the iteration count; the fuel parameter exists
only to exhibit termination and is never exhausted on a fuel ≥ length run. -/
def throw_away_units (units : List Nat) : List Nat :=
  throw_away_go units.length units

/-- string::throw_away (lines 707-776).  The source allocates the output as
new char[len + 1] with len the stored unit count, memsets it to zero, lets the
encode loop write its bytes, and builds the returned throw_away_string from it
via strlen and memcpy (line 80).  The loop writes up to 4 bytes per unit, so
the writes run past the allocation as soon as the byte count exceeds len + 1;
and when the byte count is exactly len + 1 with no zero byte among them, every
zeroed slot has been overwritten and the strlen read runs past the allocation.
Both are undefined behavior, modeled as none.  Otherwise the returned sequence
is the written bytes up to the first zero (strlen over the zero-initialized
buffer).  A null data pointer returns throw_away_string of an empty literal,
the empty sequence. -/
def Str.throw_away (s : Str) : Option (List Nat) :=
  if s.ptrNull then some []
  else
    let out := throw_away_units s.units
    if s.units.length + 1 < out.length then none
    else if out.length = s.units.length + 1 ∧ ¬ 0 ∈ out then none
    else some (out.takeWhile (fun b => b != 0))

/-- The buffer invariant of the specification data model restricted to its
first half: length never exceeds capacity. -/
def StrInv (s : Str) : Prop := s.units.length ≤ s.cap

instance (s : Str) : Decidable (StrInv s) := by
  unfold StrInv; infer_instance

/-- One append-style operation, for the growth-monotonicity property: a single
code unit, another string, or byte input through append(const char *). -/
inductive AOp where
  | unit (c : Nat)
  | str (t : Str)
  | bytes (b : List Nat)

/-- Effect of one append operation on the state (for a failing byte append the
post-throw state of the object). -/
def astep (s : Str) : AOp → Str
  | .unit c => append_unit s c
  | .str t => append_str s t
  | .bytes b => (append_cstr s b).1

/-- State after a sequence of append operations. -/
def runAppends (s : Str) (ops : List AOp) : Str := ops.foldl astep s

/-- High-surrogate test on a stored unit. -/
def isHighSurr (u : Nat) : Bool := decide (0xD800 ≤ u ∧ u ≤ 0xDBFF)

/-- Low-surrogate test on a stored unit. -/
def isLowSurr (u : Nat) : Bool := decide (0xDC00 ≤ u ∧ u ≤ 0xDFFF)

/-- Every high surrogate in the list is immediately followed by a low
surrogate. -/
def highsPaired : List Nat → Bool
  | [] => true
  | u :: rest =>
    if isHighSurr u then
      (match rest with | [] => false | v :: _ => isLowSurr v) && highsPaired rest
    else highsPaired rest

/-
  Claim-side (specification) notions for the round-trip claim: a valid UTF-8
  byte sequence is the concatenation of the canonical shortest-form encodings
  of a list of Unicode scalar values, each nonzero (the claim requires no zero
  byte), at most 0x10FFFF and not a surrogate code point.
-/

/-- Validity of one scalar value per claim C1. -/
def scalarValid (s : Nat) : Prop :=
  0 < s ∧ s ≤ 0x10FFFF ∧ ¬(0xD800 ≤ s ∧ s ≤ 0xDFFF)

instance (s : Nat) : Decidable (scalarValid s) := by
  unfold scalarValid; infer_instance

/-- Canonical (shortest-form) UTF-8 encoding of one scalar value. -/
def utf8EncodeScalar (s : Nat) : List Nat :=
  if s < 0x80 then [s]
  else if s < 0x800 then [0xC0 + s / 64, 0x80 + s % 64]
  else if s < 0x10000 then [0xE0 + s / 4096, 0x80 + s / 64 % 64, 0x80 + s % 64]
  else [0xF0 + s / 262144, 0x80 + s / 4096 % 64, 0x80 + s / 64 % 64, 0x80 + s % 64]

/-- A valid UTF-8 byte sequence: the encodings of a scalar list, concatenated. -/
def utf8Encode (ss : List Nat) : List Nat := (ss.map utf8EncodeScalar).flatten

/-- The UTF-16 code units that decoding should produce for one scalar value:
one unit in the BMP, a surrogate pair above it. -/
def utf16OfScalar (s : Nat) : List Nat :=
  if s < 0x10000 then [s]
  else [0xD800 + (s - 0x10000) / 1024, 0xDC00 + (s - 0x10000) % 1024]

/-- Expected code-unit sequence for a scalar list. -/
def utf16Rep (ss : List Nat) : List Nat := (ss.map utf16OfScalar).flatten

/-- Whether a scalar list contains a value that needs a multi-byte UTF-8
sequence. -/
def hasMulti (ss : List Nat) : Bool := ss.any (fun s => decide (0x80 ≤ s))

/-
  Arithmetic bridges between the bit operations of the source and the
  divisions and remainders used by the canonical-form definitions.
-/

/-- Disjoint bitwise or is addition: oring a multiple of 2 ^ k with a value
below 2 ^ k adds them. -/
theorem lor_eq_add_mul_pow {a b k : Nat} (h : b < 2 ^ k) :
    (a * 2 ^ k) ||| b = a * 2 ^ k + b := by
  apply Nat.eq_of_testBit_eq
  intro i
  rw [Nat.testBit_or, Nat.mul_comm a, Nat.testBit_mul_pow_two_add a h i]
  by_cases hik : i < k
  · rw [if_pos hik, Nat.testBit_mul_pow_two]
    simp [Nat.not_le.mpr hik]
  · rw [if_neg hik, Nat.testBit_mul_pow_two]
    have hb : b < 2 ^ i :=
      Nat.lt_of_lt_of_le h (Nat.pow_le_pow_right (by omega) (Nat.le_of_not_lt hik))
    simp [Nat.testBit_lt_two_pow hb, Nat.le_of_not_lt hik]

/-- shiftLeft form of the disjoint-or lemma. -/
theorem shiftLeft_lor_eq {a b k : Nat} (h : b < 2 ^ k) :
    (a <<< k) ||| b = a * 2 ^ k + b := by
  rw [Nat.shiftLeft_eq]; exact lor_eq_add_mul_pow h

/-- Masking with 0x3F is remainder by 64. -/
theorem and_63 (x : Nat) : x &&& 0x3F = x % 64 := Nat.and_pow_two_sub_one_eq_mod x 6

/-- Masking with 0x3FF is remainder by 1024. -/
theorem and_1023 (x : Nat) : x &&& 0x3FF = x % 1024 := Nat.and_pow_two_sub_one_eq_mod x 10

/-- Shifting right by k is division by 2 ^ k, at the exponents the transcoder
uses. -/
theorem shr_eq_div (x : Nat) :
    x >>> 6 = x / 64 ∧ x >>> 10 = x / 1024 ∧ x >>> 12 = x / 4096 ∧ x >>> 18 = x / 262144 := by
  refine ⟨?_, ?_, ?_, ?_⟩ <;> rw [Nat.shiftRight_eq_div_pow]

/-- Small-range or facts for the tag bits of the encoder. -/
theorem or_tag_c0 : ∀ x < 64, 0xC0 ||| x = 0xC0 + x := by decide

theorem or_tag_80 : ∀ x < 64, 0x80 ||| x = 0x80 + x := by decide

theorem or_tag_e0 : ∀ x < 16, 0xE0 ||| x = 0xE0 + x := by decide

theorem or_tag_f0 : ∀ x < 8, 0xF0 ||| x = 0xF0 + x := by decide

set_option maxRecDepth 8192 in
theorem or_tag_d800 : ∀ x < 1024, 0xD800 ||| x = 0xD800 + x := by decide

set_option maxRecDepth 8192 in
theorem or_tag_dc00 : ∀ x < 1024, 0xDC00 ||| x = 0xDC00 + x := by decide

/-- Mask facts for a canonical 2-byte lead. -/
theorem mask_c0 : ∀ x < 32, (0xC0 + x) &&& 0xE0 = 0xC0 ∧ (0xC0 + x) &&& 0x1F = x := by decide

/-- Mask facts for a canonical continuation byte. -/
theorem mask_80 : ∀ x < 64, (0x80 + x) &&& 0xC0 = 0x80 ∧ (0x80 + x) &&& 0x3F = x := by decide

/-- Mask facts for a canonical 3-byte lead. -/
theorem mask_e0 : ∀ x < 16,
    (0xE0 + x) &&& 0xE0 = 0xE0 ∧ (0xE0 + x) &&& 0xF0 = 0xE0 ∧ (0xE0 + x) &&& 0x0F = x := by decide

/-- Mask facts for a canonical 4-byte lead. -/
theorem mask_f0 : ∀ x < 8,
    (0xF0 + x) &&& 0xE0 = 0xE0 ∧ (0xF0 + x) &&& 0xF0 = 0xF0 ∧
    (0xF0 + x) &&& 0xF8 = 0xF0 ∧ (0xF0 + x) &&& 0x07 = x := by decide

/-- Bounds of the growth rule: the capacity never shrinks and always reaches
the requested size. -/
theorem ensure_cap_facts (cap req : Nat) :
    cap ≤ ensure_capacity_cap cap req ∧ req ≤ ensure_capacity_cap cap req := by
  unfold ensure_capacity_cap
  dsimp only
  split_ifs <;> omega

/-- The UTF-8 decode loop writes its output after the caller-supplied
accumulator, and its error and its own output are independent of the incoming
accumulator and capacity. -/
theorem convert_utf8_go_norm (fuel : Nat) : ∀ bytes acc cap,
    (convert_utf8_go fuel bytes acc cap).1 = (convert_utf8_go fuel bytes [] 0).1 ∧
    (convert_utf8_go fuel bytes acc cap).2.1 = acc ++ (convert_utf8_go fuel bytes [] 0).2.1 := by
  induction fuel with
  | zero => intro bytes acc cap; simp [convert_utf8_go]
  | succ fuel ih =>
    intro bytes acc cap
    match bytes with
    | [] => simp [convert_utf8_go]
    | b1 :: rest =>
      rw [convert_utf8_go, convert_utf8_go]
      dsimp only
      split_ifs with h1 h2 h3 h4 h5 h6 h7 h8 h9 h10 <;>
        first
        | (refine ⟨((ih _ _ _).1).trans (((ih _ _ _).1).symm), ?_⟩
           rw [(ih _ _ _).2]
           conv_rhs => rw [(ih _ _ _).2]
           simp)
        | simp

/-- Accumulator and capacity independence for the UTF-16LE decode loop. -/
theorem convert_utf16le_go_norm (fuel : Nat) : ∀ bytes acc cap,
    (convert_utf16le_go fuel bytes acc cap).1 = (convert_utf16le_go fuel bytes [] 0).1 ∧
    (convert_utf16le_go fuel bytes acc cap).2.1 =
      acc ++ (convert_utf16le_go fuel bytes [] 0).2.1 := by
  induction fuel with
  | zero => intro bytes acc cap; simp [convert_utf16le_go]
  | succ fuel ih =>
    intro bytes acc cap
    match bytes with
    | [] => simp [convert_utf16le_go]
    | b0 :: rest =>
      rw [convert_utf16le_go, convert_utf16le_go]
      dsimp only
      split_ifs with h1 h2 h3 <;>
        first
        | (refine ⟨((ih _ _ _).1).trans (((ih _ _ _).1).symm), ?_⟩
           rw [(ih _ _ _).2]
           conv_rhs => rw [(ih _ _ _).2]
           simp)
        | simp

/-- Accumulator and capacity independence for the UTF-16BE decode loop. -/
theorem convert_utf16be_go_norm (fuel : Nat) : ∀ bytes acc cap,
    (convert_utf16be_go fuel bytes acc cap).1 = (convert_utf16be_go fuel bytes [] 0).1 ∧
    (convert_utf16be_go fuel bytes acc cap).2.1 =
      acc ++ (convert_utf16be_go fuel bytes [] 0).2.1 := by
  induction fuel with
  | zero => intro bytes acc cap; simp [convert_utf16be_go]
  | succ fuel ih =>
    intro bytes acc cap
    match bytes with
    | [] => simp [convert_utf16be_go]
    | b0 :: rest =>
      rw [convert_utf16be_go, convert_utf16be_go]
      dsimp only
      split_ifs with h1 h2 h3 <;>
        first
        | (refine ⟨((ih _ _ _).1).trans (((ih _ _ _).1).symm), ?_⟩
           rw [(ih _ _ _).2]
           conv_rhs => rw [(ih _ _ _).2]
           simp)
        | simp

/-- Accumulator and capacity independence for the UTF-32LE decode loop. -/
theorem convert_utf32le_go_norm (fuel : Nat) : ∀ bytes acc cap,
    (convert_utf32le_go fuel bytes acc cap).1 = (convert_utf32le_go fuel bytes [] 0).1 ∧
    (convert_utf32le_go fuel bytes acc cap).2.1 =
      acc ++ (convert_utf32le_go fuel bytes [] 0).2.1 := by
  induction fuel with
  | zero => intro bytes acc cap; simp [convert_utf32le_go]
  | succ fuel ih =>
    intro bytes acc cap
    match bytes with
    | [] => simp [convert_utf32le_go]
    | b0 :: rest =>
      rw [convert_utf32le_go, convert_utf32le_go]
      dsimp only
      split_ifs with h1 h2 <;>
        first
        | (refine ⟨((ih _ _ _).1).trans (((ih _ _ _).1).symm), ?_⟩
           rw [(ih _ _ _).2]
           conv_rhs => rw [(ih _ _ _).2]
           simp)
        | simp

/-- Accumulator and capacity independence for the UTF-32BE decode loop. -/
theorem convert_utf32be_go_norm (fuel : Nat) : ∀ bytes acc cap,
    (convert_utf32be_go fuel bytes acc cap).1 = (convert_utf32be_go fuel bytes [] 0).1 ∧
    (convert_utf32be_go fuel bytes acc cap).2.1 =
      acc ++ (convert_utf32be_go fuel bytes [] 0).2.1 := by
  induction fuel with
  | zero => intro bytes acc cap; simp [convert_utf32be_go]
  | succ fuel ih =>
    intro bytes acc cap
    match bytes with
    | [] => simp [convert_utf32be_go]
    | b0 :: rest =>
      rw [convert_utf32be_go, convert_utf32be_go]
      dsimp only
      split_ifs with h1 h2 <;>
        first
        | (refine ⟨((ih _ _ _).1).trans (((ih _ _ _).1).symm), ?_⟩
           rw [(ih _ _ _).2]
           conv_rhs => rw [(ih _ _ _).2]
           simp)
        | simp

/-- Capacity facts for the UTF-8 decode loop: the capacity never shrinks and
always covers the units written. -/
theorem convert_utf8_go_inv (fuel : Nat) : ∀ bytes acc cap, acc.length ≤ cap →
    cap ≤ (convert_utf8_go fuel bytes acc cap).2.2 ∧
    (convert_utf8_go fuel bytes acc cap).2.1.length ≤ (convert_utf8_go fuel bytes acc cap).2.2 := by
  induction fuel with
  | zero => intro bytes acc cap h; simpa [convert_utf8_go] using h
  | succ fuel ih =>
    intro bytes acc cap h
    match bytes with
    | [] => simpa [convert_utf8_go] using h
    | b1 :: rest =>
      rw [convert_utf8_go]
      dsimp only
      split_ifs with h1 h2 h3 h4 h5 h6 h7 h8 h9 h10 <;>
        first
        | (refine ⟨le_trans (ensure_cap_facts _ _).1 (ih _ _ _ ?_).1, (ih _ _ _ ?_).2⟩ <;>
            exact le_trans (le_of_eq (by simp)) (ensure_cap_facts _ _).2)
        | simpa using h

/-- Capacity facts for the UTF-16LE decode loop. -/
theorem convert_utf16le_go_inv (fuel : Nat) : ∀ bytes acc cap, acc.length ≤ cap →
    cap ≤ (convert_utf16le_go fuel bytes acc cap).2.2 ∧
    (convert_utf16le_go fuel bytes acc cap).2.1.length ≤
      (convert_utf16le_go fuel bytes acc cap).2.2 := by
  induction fuel with
  | zero => intro bytes acc cap h; simpa [convert_utf16le_go] using h
  | succ fuel ih =>
    intro bytes acc cap h
    match bytes with
    | [] => simpa [convert_utf16le_go] using h
    | b0 :: rest =>
      rw [convert_utf16le_go]
      dsimp only
      split_ifs with h1 h2 h3
      · exact ⟨(ensure_cap_facts _ _).1, le_trans (le_of_eq (by simp)) (ensure_cap_facts _ _).2⟩
      · exact ⟨(ensure_cap_facts _ _).1, le_trans (le_of_eq (by simp)) (ensure_cap_facts _ _).2⟩
      · refine ⟨le_trans (le_trans (ensure_cap_facts _ _).1 (ensure_cap_facts _ _).1)
            (ih _ _ _ ?_).1, (ih _ _ _ ?_).2⟩ <;>
          exact le_trans (le_of_eq (by simp)) (ensure_cap_facts _ _).2
      · refine ⟨le_trans (ensure_cap_facts _ _).1 (ih _ _ _ ?_).1, (ih _ _ _ ?_).2⟩ <;>
          exact le_trans (le_of_eq (by simp)) (ensure_cap_facts _ _).2

/-- Capacity facts for the UTF-16BE decode loop. -/
theorem convert_utf16be_go_inv (fuel : Nat) : ∀ bytes acc cap, acc.length ≤ cap →
    cap ≤ (convert_utf16be_go fuel bytes acc cap).2.2 ∧
    (convert_utf16be_go fuel bytes acc cap).2.1.length ≤
      (convert_utf16be_go fuel bytes acc cap).2.2 := by
  induction fuel with
  | zero => intro bytes acc cap h; simpa [convert_utf16be_go] using h
  | succ fuel ih =>
    intro bytes acc cap h
    match bytes with
    | [] => simpa [convert_utf16be_go] using h
    | b0 :: rest =>
      rw [convert_utf16be_go]
      dsimp only
      split_ifs with h1 h2 h3
      · exact ⟨(ensure_cap_facts _ _).1, le_trans (le_of_eq (by simp)) (ensure_cap_facts _ _).2⟩
      · exact ⟨(ensure_cap_facts _ _).1, le_trans (le_of_eq (by simp)) (ensure_cap_facts _ _).2⟩
      · refine ⟨le_trans (le_trans (ensure_cap_facts _ _).1 (ensure_cap_facts _ _).1)
            (ih _ _ _ ?_).1, (ih _ _ _ ?_).2⟩ <;>
          exact le_trans (le_of_eq (by simp)) (ensure_cap_facts _ _).2
      · refine ⟨le_trans (ensure_cap_facts _ _).1 (ih _ _ _ ?_).1, (ih _ _ _ ?_).2⟩ <;>
          exact le_trans (le_of_eq (by simp)) (ensure_cap_facts _ _).2

/-- Capacity facts for the UTF-32LE decode loop. -/
theorem convert_utf32le_go_inv (fuel : Nat) : ∀ bytes acc cap, acc.length ≤ cap →
    cap ≤ (convert_utf32le_go fuel bytes acc cap).2.2 ∧
    (convert_utf32le_go fuel bytes acc cap).2.1.length ≤
      (convert_utf32le_go fuel bytes acc cap).2.2 := by
  induction fuel with
  | zero => intro bytes acc cap h; simpa [convert_utf32le_go] using h
  | succ fuel ih =>
    intro bytes acc cap h
    match bytes with
    | [] => simpa [convert_utf32le_go] using h
    | b0 :: rest =>
      rw [convert_utf32le_go]
      dsimp only
      split_ifs with h1 h2
      · refine ⟨le_trans (ensure_cap_facts _ _).1 (ih _ _ _ ?_).1, (ih _ _ _ ?_).2⟩ <;>
          exact le_trans (le_of_eq (by simp)) (ensure_cap_facts _ _).2
      · refine ⟨le_trans (ensure_cap_facts _ _).1 (ih _ _ _ ?_).1, (ih _ _ _ ?_).2⟩ <;>
          exact le_trans (le_of_eq (by simp)) (ensure_cap_facts _ _).2
      · exact ⟨le_refl _, h⟩

/-- Capacity facts for the UTF-32BE decode loop. -/
theorem convert_utf32be_go_inv (fuel : Nat) : ∀ bytes acc cap, acc.length ≤ cap →
    cap ≤ (convert_utf32be_go fuel bytes acc cap).2.2 ∧
    (convert_utf32be_go fuel bytes acc cap).2.1.length ≤
      (convert_utf32be_go fuel bytes acc cap).2.2 := by
  induction fuel with
  | zero => intro bytes acc cap h; simpa [convert_utf32be_go] using h
  | succ fuel ih =>
    intro bytes acc cap h
    match bytes with
    | [] => simpa [convert_utf32be_go] using h
    | b0 :: rest =>
      rw [convert_utf32be_go]
      dsimp only
      split_ifs with h1 h2
      · refine ⟨le_trans (ensure_cap_facts _ _).1 (ih _ _ _ ?_).1, (ih _ _ _ ?_).2⟩ <;>
          exact le_trans (le_of_eq (by simp)) (ensure_cap_facts _ _).2
      · refine ⟨le_trans (ensure_cap_facts _ _).1 (ih _ _ _ ?_).1, (ih _ _ _ ?_).2⟩ <;>
          exact le_trans (le_of_eq (by simp)) (ensure_cap_facts _ _).2
      · exact ⟨le_refl _, h⟩

/-- Effect of ensure_capacity on the state: content untouched, capacity never
shrinks and reaches the request. -/
theorem Str_ensure_facts (s : Str) (req : Nat) :
    (s.ensure_capacity req).units = s.units ∧ s.cap ≤ (s.ensure_capacity req).cap ∧
    req ≤ (s.ensure_capacity req).cap := by
  unfold Str.ensure_capacity
  split_ifs with h
  · have := ensure_cap_facts s.cap req
    exact ⟨rfl, this.1, this.2⟩
  · exact ⟨rfl, le_refl _, by omega⟩

/-- The UTF-8 conversion member depends on the prior string state only through
its capacity bookkeeping: the resulting content and error are functions of the
input window alone. -/
theorem convert_utf8_to_utf16_norm (s t : Str) (w : List Nat) :
    (convert_utf8_to_utf16 s w).2 = (convert_utf8_to_utf16 t w).2 ∧
    (convert_utf8_to_utf16 s w).1.units = (convert_utf8_to_utf16 t w).1.units := by
  have hs := convert_utf8_go_norm w.length w [] s.cap
  have ht := convert_utf8_go_norm w.length w [] t.cap
  rcases hXs : convert_utf8_go w.length w [] s.cap with ⟨es, us, cs⟩
  rcases hXt : convert_utf8_go w.length w [] t.cap with ⟨et, ut, ct⟩
  rw [hXs] at hs
  rw [hXt] at ht
  have he : es = et := by
    have h1 := hs.1
    have h2 := ht.1
    simp at h1 h2
    rw [h1, h2]
  have hu : us = ut := by
    have h1 := hs.2
    have h2 := ht.2
    simp at h1 h2
    rw [h1, h2]
  subst he
  subst hu
  unfold convert_utf8_to_utf16
  rw [hXs, hXt]
  cases es <;> simp [Str.withCap]

/-- Content and error of the UTF-16LE conversion member are functions of the
input window alone. -/
theorem convert_utf16le_to_utf16_norm (s t : Str) (w : List Nat) :
    (convert_utf16le_to_utf16 s w).2 = (convert_utf16le_to_utf16 t w).2 ∧
    (convert_utf16le_to_utf16 s w).1.units = (convert_utf16le_to_utf16 t w).1.units := by
  have hs := convert_utf16le_go_norm w.length w [] (s.ensure_capacity (w.length / 2)).cap
  have ht := convert_utf16le_go_norm w.length w [] (t.ensure_capacity (w.length / 2)).cap
  rcases hXs : convert_utf16le_go w.length w [] (s.ensure_capacity (w.length / 2)).cap with
    ⟨es, us, cs⟩
  rcases hXt : convert_utf16le_go w.length w [] (t.ensure_capacity (w.length / 2)).cap with
    ⟨et, ut, ct⟩
  rw [hXs] at hs
  rw [hXt] at ht
  have he : es = et := by
    have h1 := hs.1
    have h2 := ht.1
    simp at h1 h2
    rw [h1, h2]
  have hu : us = ut := by
    have h1 := hs.2
    have h2 := ht.2
    simp at h1 h2
    rw [h1, h2]
  subst he
  subst hu
  unfold convert_utf16le_to_utf16
  dsimp only
  rw [hXs, hXt]
  cases es <;> simp [Str.withCap]

/-- Content and error of the UTF-16BE conversion member are functions of the
input window alone. -/
theorem convert_utf16be_to_utf16_norm (s t : Str) (w : List Nat) :
    (convert_utf16be_to_utf16 s w).2 = (convert_utf16be_to_utf16 t w).2 ∧
    (convert_utf16be_to_utf16 s w).1.units = (convert_utf16be_to_utf16 t w).1.units := by
  have hs := convert_utf16be_go_norm w.length w [] (s.ensure_capacity (w.length / 2)).cap
  have ht := convert_utf16be_go_norm w.length w [] (t.ensure_capacity (w.length / 2)).cap
  rcases hXs : convert_utf16be_go w.length w [] (s.ensure_capacity (w.length / 2)).cap with
    ⟨es, us, cs⟩
  rcases hXt : convert_utf16be_go w.length w [] (t.ensure_capacity (w.length / 2)).cap with
    ⟨et, ut, ct⟩
  rw [hXs] at hs
  rw [hXt] at ht
  have he : es = et := by
    have h1 := hs.1
    have h2 := ht.1
    simp at h1 h2
    rw [h1, h2]
  have hu : us = ut := by
    have h1 := hs.2
    have h2 := ht.2
    simp at h1 h2
    rw [h1, h2]
  subst he
  subst hu
  unfold convert_utf16be_to_utf16
  dsimp only
  rw [hXs, hXt]
  cases es <;> simp [Str.withCap]

/-- Content and error of the UTF-32LE conversion member are functions of the
input window alone. -/
theorem convert_utf32le_to_utf16_norm (s t : Str) (w : List Nat) :
    (convert_utf32le_to_utf16 s w).2 = (convert_utf32le_to_utf16 t w).2 ∧
    (convert_utf32le_to_utf16 s w).1.units = (convert_utf32le_to_utf16 t w).1.units := by
  have hs := convert_utf32le_go_norm w.length w [] (s.ensure_capacity (w.length / 4 * 2)).cap
  have ht := convert_utf32le_go_norm w.length w [] (t.ensure_capacity (w.length / 4 * 2)).cap
  rcases hXs : convert_utf32le_go w.length w [] (s.ensure_capacity (w.length / 4 * 2)).cap with
    ⟨es, us, cs⟩
  rcases hXt : convert_utf32le_go w.length w [] (t.ensure_capacity (w.length / 4 * 2)).cap with
    ⟨et, ut, ct⟩
  rw [hXs] at hs
  rw [hXt] at ht
  have he : es = et := by
    have h1 := hs.1
    have h2 := ht.1
    simp at h1 h2
    rw [h1, h2]
  have hu : us = ut := by
    have h1 := hs.2
    have h2 := ht.2
    simp at h1 h2
    rw [h1, h2]
  subst he
  subst hu
  unfold convert_utf32le_to_utf16
  dsimp only
  rw [hXs, hXt]
  cases es <;> simp [Str.withCap]

/-- Content and error of the UTF-32BE conversion member are functions of the
input window alone. -/
theorem convert_utf32be_to_utf16_norm (s t : Str) (w : List Nat) :
    (convert_utf32be_to_utf16 s w).2 = (convert_utf32be_to_utf16 t w).2 ∧
    (convert_utf32be_to_utf16 s w).1.units = (convert_utf32be_to_utf16 t w).1.units := by
  have hs := convert_utf32be_go_norm w.length w [] (s.ensure_capacity (w.length / 4 * 2)).cap
  have ht := convert_utf32be_go_norm w.length w [] (t.ensure_capacity (w.length / 4 * 2)).cap
  rcases hXs : convert_utf32be_go w.length w [] (s.ensure_capacity (w.length / 4 * 2)).cap with
    ⟨es, us, cs⟩
  rcases hXt : convert_utf32be_go w.length w [] (t.ensure_capacity (w.length / 4 * 2)).cap with
    ⟨et, ut, ct⟩
  rw [hXs] at hs
  rw [hXt] at ht
  have he : es = et := by
    have h1 := hs.1
    have h2 := ht.1
    simp at h1 h2
    rw [h1, h2]
  have hu : us = ut := by
    have h1 := hs.2
    have h2 := ht.2
    simp at h1 h2
    rw [h1, h2]
  subst he
  subst hu
  unfold convert_utf32be_to_utf16
  dsimp only
  rw [hXs, hXt]
  cases es <;> simp [Str.withCap]

/-- Capacity facts for the UTF-8 conversion member: the result satisfies the
length-capacity invariant and the capacity never shrinks. -/
theorem convert_utf8_to_utf16_inv (s : Str) (w : List Nat) :
    StrInv (convert_utf8_to_utf16 s w).1 ∧ s.cap ≤ (convert_utf8_to_utf16 s w).1.cap := by
  have h := convert_utf8_go_inv w.length w [] s.cap (by simp)
  rcases hX : convert_utf8_go w.length w [] s.cap with ⟨e, us, c⟩
  rw [hX] at h
  simp at h
  unfold convert_utf8_to_utf16
  rw [hX]
  cases e <;> simp [StrInv, Str.withCap] <;> omega

/-- Capacity facts for the UTF-16LE conversion member. -/
theorem convert_utf16le_to_utf16_inv (s : Str) (w : List Nat) :
    StrInv (convert_utf16le_to_utf16 s w).1 ∧ s.cap ≤ (convert_utf16le_to_utf16 s w).1.cap := by
  have hens := Str_ensure_facts s (w.length / 2)
  have h := convert_utf16le_go_inv w.length w [] (s.ensure_capacity (w.length / 2)).cap (by simp)
  rcases hX : convert_utf16le_go w.length w [] (s.ensure_capacity (w.length / 2)).cap with
    ⟨e, us, c⟩
  rw [hX] at h
  simp at h
  unfold convert_utf16le_to_utf16
  dsimp only
  rw [hX]
  cases e <;> simp [StrInv, Str.withCap] <;> omega

/-- Capacity facts for the UTF-16BE conversion member. -/
theorem convert_utf16be_to_utf16_inv (s : Str) (w : List Nat) :
    StrInv (convert_utf16be_to_utf16 s w).1 ∧ s.cap ≤ (convert_utf16be_to_utf16 s w).1.cap := by
  have hens := Str_ensure_facts s (w.length / 2)
  have h := convert_utf16be_go_inv w.length w [] (s.ensure_capacity (w.length / 2)).cap (by simp)
  rcases hX : convert_utf16be_go w.length w [] (s.ensure_capacity (w.length / 2)).cap with
    ⟨e, us, c⟩
  rw [hX] at h
  simp at h
  unfold convert_utf16be_to_utf16
  dsimp only
  rw [hX]
  cases e <;> simp [StrInv, Str.withCap] <;> omega

/-- Capacity facts for the UTF-32LE conversion member. -/
theorem convert_utf32le_to_utf16_inv (s : Str) (w : List Nat) :
    StrInv (convert_utf32le_to_utf16 s w).1 ∧ s.cap ≤ (convert_utf32le_to_utf16 s w).1.cap := by
  have hens := Str_ensure_facts s (w.length / 4 * 2)
  have h := convert_utf32le_go_inv w.length w [] (s.ensure_capacity (w.length / 4 * 2)).cap
    (by simp)
  rcases hX : convert_utf32le_go w.length w [] (s.ensure_capacity (w.length / 4 * 2)).cap with
    ⟨e, us, c⟩
  rw [hX] at h
  simp at h
  unfold convert_utf32le_to_utf16
  dsimp only
  rw [hX]
  cases e <;> simp [StrInv, Str.withCap] <;> omega

/-- Capacity facts for the UTF-32BE conversion member. -/
theorem convert_utf32be_to_utf16_inv (s : Str) (w : List Nat) :
    StrInv (convert_utf32be_to_utf16 s w).1 ∧ s.cap ≤ (convert_utf32be_to_utf16 s w).1.cap := by
  have hens := Str_ensure_facts s (w.length / 4 * 2)
  have h := convert_utf32be_go_inv w.length w [] (s.ensure_capacity (w.length / 4 * 2)).cap
    (by simp)
  rcases hX : convert_utf32be_go w.length w [] (s.ensure_capacity (w.length / 4 * 2)).cap with
    ⟨e, us, c⟩
  rw [hX] at h
  simp at h
  unfold convert_utf32be_to_utf16
  dsimp only
  rw [hX]
  cases e <;> simp [StrInv, Str.withCap] <;> omega

/-- The conversion dispatcher depends on the prior state only through the
capacity: content and error are functions of the byte window, the length
argument and the encoding alone. -/
theorem convert_to_utf16_norm (s t : Str) (b : List Nat) (len_in : Option Nat) (e : Encoding) :
    (convert_to_utf16 s b len_in e).2 = (convert_to_utf16 t b len_in e).2 ∧
    (convert_to_utf16 s b len_in e).1.units = (convert_to_utf16 t b len_in e).1.units := by
  cases e
  case ASCII => cases len_in <;> simp [convert_to_utf16]
  case UTF8 =>
    simp only [convert_to_utf16]
    exact convert_utf8_to_utf16_norm _ _ _
  case UTF16_LE =>
    simp only [convert_to_utf16]
    exact convert_utf16le_to_utf16_norm _ _ _
  case UTF16_BE =>
    simp only [convert_to_utf16]
    exact convert_utf16be_to_utf16_norm _ _ _
  case UTF32_LE =>
    simp only [convert_to_utf16]
    exact convert_utf32le_to_utf16_norm _ _ _
  case UTF32_BE =>
    simp only [convert_to_utf16]
    exact convert_utf32be_to_utf16_norm _ _ _

/-- Capacity facts for the conversion dispatcher. -/
theorem convert_to_utf16_inv (s : Str) (b : List Nat) (len_in : Option Nat) (e : Encoding) :
    StrInv (convert_to_utf16 s b len_in e).1 ∧ s.cap ≤ (convert_to_utf16 s b len_in e).1.cap := by
  cases e
  case ASCII =>
    cases len_in with
    | none =>
      have := Str_ensure_facts s (strlen b)
      simp [convert_to_utf16, StrInv]
      omega
    | some n =>
      have := Str_ensure_facts s n
      simp [convert_to_utf16, StrInv]
      constructor
      · have hl : ((b.take n).map ascii_ext).length ≤ n := by simp
        omega
      · omega
  case UTF8 =>
    unfold convert_to_utf16
    dsimp only
    generalize (match len_in with | none => strlen b | some m => m) = n
    refine ⟨(convert_utf8_to_utf16_inv _ _).1, ?_⟩
    have h2 := (convert_utf8_to_utf16_inv
      { ptrNull := (s.ensure_capacity n).ptrNull, units := [], cap := (s.ensure_capacity n).cap }
      (b.take n)).2
    exact le_trans (Str_ensure_facts s n).2.1 h2
  case UTF16_LE =>
    unfold convert_to_utf16
    dsimp only
    generalize (match len_in with | none => strlen b | some m => m) = n
    refine ⟨(convert_utf16le_to_utf16_inv _ _).1, ?_⟩
    have h2 := (convert_utf16le_to_utf16_inv
      { ptrNull := (s.ensure_capacity n).ptrNull, units := [], cap := (s.ensure_capacity n).cap }
      (b.take n)).2
    exact le_trans (Str_ensure_facts s n).2.1 h2
  case UTF16_BE =>
    unfold convert_to_utf16
    dsimp only
    generalize (match len_in with | none => strlen b | some m => m) = n
    refine ⟨(convert_utf16be_to_utf16_inv _ _).1, ?_⟩
    have h2 := (convert_utf16be_to_utf16_inv
      { ptrNull := (s.ensure_capacity n).ptrNull, units := [], cap := (s.ensure_capacity n).cap }
      (b.take n)).2
    exact le_trans (Str_ensure_facts s n).2.1 h2
  case UTF32_LE =>
    unfold convert_to_utf16
    dsimp only
    generalize (match len_in with | none => strlen b | some m => m) = n
    refine ⟨(convert_utf32le_to_utf16_inv _ _).1, ?_⟩
    have h2 := (convert_utf32le_to_utf16_inv
      { ptrNull := (s.ensure_capacity n).ptrNull, units := [], cap := (s.ensure_capacity n).cap }
      (b.take n)).2
    exact le_trans (Str_ensure_facts s n).2.1 h2
  case UTF32_BE =>
    unfold convert_to_utf16
    dsimp only
    generalize (match len_in with | none => strlen b | some m => m) = n
    refine ⟨(convert_utf32be_to_utf16_inv _ _).1, ?_⟩
    have h2 := (convert_utf32be_to_utf16_inv
      { ptrNull := (s.ensure_capacity n).ptrNull, units := [], cap := (s.ensure_capacity n).cap }
      (b.take n)).2
    exact le_trans (Str_ensure_facts s n).2.1 h2

theorem lor_shift6 {a b : Nat} (h : b < 64) : (a <<< 6) ||| b = a * 64 + b := by
  have h3 := shiftLeft_lor_eq (a := a) (k := 6) (b := b) (by norm_num; omega)
  norm_num at h3
  exact h3

theorem lor_shift12 {a b : Nat} (h : b < 4096) : (a <<< 12) ||| b = a * 4096 + b := by
  have h3 := shiftLeft_lor_eq (a := a) (k := 12) (b := b) (by norm_num; omega)
  norm_num at h3
  exact h3

theorem lor_shift18 {a b : Nat} (h : b < 262144) : (a <<< 18) ||| b = a * 262144 + b := by
  have h3 := shiftLeft_lor_eq (a := a) (k := 18) (b := b) (by norm_num; omega)
  norm_num at h3
  exact h3

theorem lor_mul64 {a b : Nat} (h : b < 64) : (a * 64) ||| b = a * 64 + b := by
  have h3 := lor_eq_add_mul_pow (a := a) (k := 6) (b := b) (by norm_num; omega)
  norm_num at h3
  exact h3

theorem lor_mul4096 {a b : Nat} (h : b < 4096) : (a * 4096) ||| b = a * 4096 + b := by
  have h3 := lor_eq_add_mul_pow (a := a) (k := 12) (b := b) (by norm_num; omega)
  norm_num at h3
  exact h3

theorem all_ascii_encode (ss : List Nat) (h : ∀ s ∈ ss, s < 0x80) : utf8Encode ss = ss := by
  induction ss with
  | nil => rfl
  | cons s ss ih =>
    have hs := h s (by simp)
    simp [utf8Encode, utf8EncodeScalar, hs] at ih ⊢
    exact ih (fun x hx => h x (by simp [hx]))

theorem all_ascii_utf16Rep (ss : List Nat) (h : ∀ s ∈ ss, s < 0x10000) : utf16Rep ss = ss := by
  induction ss with
  | nil => rfl
  | cons s ss ih =>
    have hs := h s (by simp)
    simp [utf16Rep, utf16OfScalar, hs] at ih ⊢
    exact ih (fun x hx => h x (by simp [hx]))
theorem encScalar_len (s : Nat) : 1 ≤ (utf8EncodeScalar s).length := by
  unfold utf8EncodeScalar
  split_ifs <;> simp

theorem encScalar_multi_len (s : Nat) (h : 0x80 ≤ s) : 2 ≤ (utf8EncodeScalar s).length := by
  unfold utf8EncodeScalar
  split_ifs with h1 h2 h3 <;> first | omega | simp

theorem encode_len_lb (ss : List Nat) : ss.length ≤ (utf8Encode ss).length := by
  induction ss with
  | nil => simp [utf8Encode]
  | cons s ss ih =>
    have := encScalar_len s
    simp [utf8Encode] at ih ⊢
    omega

theorem hasMulti_len (ss : List Nat) (h : hasMulti ss = true) : 2 ≤ (utf8Encode ss).length := by
  induction ss with
  | nil => simp [hasMulti] at h
  | cons s ss ih =>
    simp [hasMulti] at h
    rcases h with h | h
    · have := encScalar_multi_len s h
      simp [utf8Encode]
      omega
    · have := ih (by simp [hasMulti, h])
      have := encScalar_len s
      simp [utf8Encode] at *
      omega

theorem encScalar_first (s : Nat) (hv : scalarValid s) :
    1 ≤ (utf8EncodeScalar s).getD 0 0 ∧ (utf8EncodeScalar s).getD 0 0 ≤ 0xF4 := by
  obtain ⟨h1, h2, h3⟩ := hv
  unfold utf8EncodeScalar
  split_ifs with hs1 hs2 hs3 <;> simp <;> omega

theorem all_ascii_go (l : List Nat) : ∀ c, (∀ x ∈ l, x ≤ 0x7F) →
    detect_utf8_heuristic_go l c 0 = if c > 0 then Encoding.UTF8 else Encoding.ASCII := by
  induction l with
  | nil => intro c h; rfl
  | cons x l ih =>
    intro c h
    have hx := h x (by simp)
    simp only [detect_utf8_heuristic_go, if_pos rfl, if_pos hx]
    exact ih c (fun y hy => h y (by simp [hy]))
theorem heuristic_encode (ss : List Nat) : ∀ c, (∀ s ∈ ss, scalarValid s) →
    detect_utf8_heuristic_go (utf8Encode ss) c 0 =
      if c > 0 ∨ hasMulti ss = true then Encoding.UTF8 else Encoding.ASCII := by
  induction ss with
  | nil =>
    intro c h
    simp only [utf8Encode, List.map_nil, List.flatten_nil, detect_utf8_heuristic_go, hasMulti,
      List.any_nil]
    by_cases hc : c > 0 <;> simp [hc]
  | cons s ss ih =>
    intro c h
    obtain ⟨hpos, hle, hns⟩ := h s (by simp)
    have hrest : ∀ x ∈ ss, scalarValid x := fun x hx => h x (by simp [hx])
    have hm : hasMulti (s :: ss) = ((0x80 ≤ s : Bool) || hasMulti ss) := by
      simp [hasMulti]
    by_cases hs1 : s < 0x80
    · have henc : utf8Encode (s :: ss) = s :: utf8Encode ss := by
        simp [utf8Encode, utf8EncodeScalar, hs1]
      rw [henc]
      simp only [detect_utf8_heuristic_go, if_pos rfl, if_pos (show s ≤ 0x7F by omega)]
      rw [ih c hrest, hm]
      simp [show ¬(0x80 ≤ s) by omega]
    · by_cases hs2 : s < 0x800
      · have henc : utf8Encode (s :: ss) =
            (0xC0 + s / 64) :: (0x80 + s % 64) :: utf8Encode ss := by
          simp [utf8Encode, utf8EncodeScalar, hs1, hs2]
        rw [henc]
        simp only [detect_utf8_heuristic_go, if_pos rfl,
          if_neg (show ¬(0xC0 + s / 64 ≤ 0x7F) by omega),
          if_pos ((mask_c0 (s / 64) (by omega)).1),
          if_neg (show ¬(1 = 0) by omega),
          if_neg (show ¬((0x80 + s % 64) &&& 0xC0 ≠ 0x80) by
            simp [(mask_80 (s % 64) (by omega)).1])]
        rw [ih (c + 1) hrest, hm]
        simp [show (0x80 ≤ s) by omega]
      · by_cases hs3 : s < 0x10000
        · have henc : utf8Encode (s :: ss) =
              (0xE0 + s / 4096) :: (0x80 + s / 64 % 64) :: (0x80 + s % 64) :: utf8Encode ss := by
            simp [utf8Encode, utf8EncodeScalar, hs1, hs2, hs3]
          rw [henc]
          simp only [detect_utf8_heuristic_go, if_pos rfl,
            if_neg (show ¬(0xE0 + s / 4096 ≤ 0x7F) by omega),
            if_neg (show ¬((0xE0 + s / 4096) &&& 0xE0 = 0xC0) by
              rw [(mask_e0 (s / 4096) (by omega)).1]
              omega),
            if_pos ((mask_e0 (s / 4096) (by omega)).2.1),
            if_neg (show ¬(2 = 0) by omega),
            if_neg (show ¬(1 = 0) by omega),
            if_neg (show ¬((0x80 + s / 64 % 64) &&& 0xC0 ≠ 0x80) by
              simp [(mask_80 (s / 64 % 64) (by omega)).1]),
            if_neg (show ¬((0x80 + s % 64) &&& 0xC0 ≠ 0x80) by
              simp [(mask_80 (s % 64) (by omega)).1])]
          rw [ih (c + 1) hrest, hm]
          simp [show (0x80 ≤ s) by omega]
        · have henc : utf8Encode (s :: ss) =
              (0xF0 + s / 262144) :: (0x80 + s / 4096 % 64) :: (0x80 + s / 64 % 64) ::
                (0x80 + s % 64) :: utf8Encode ss := by
            simp [utf8Encode, utf8EncodeScalar, hs1, hs2, hs3]
          rw [henc]
          simp only [detect_utf8_heuristic_go, if_pos rfl,
            if_neg (show ¬(0xF0 + s / 262144 ≤ 0x7F) by omega),
            if_neg (show ¬((0xF0 + s / 262144) &&& 0xE0 = 0xC0) by
              rw [(mask_f0 (s / 262144) (by omega)).1]
              omega),
            if_neg (show ¬((0xF0 + s / 262144) &&& 0xF0 = 0xE0) by
              rw [(mask_f0 (s / 262144) (by omega)).2.1]
              omega),
            if_pos ((mask_f0 (s / 262144) (by omega)).2.2.1),
            if_neg (show ¬(3 = 0) by omega),
            if_neg (show ¬(2 = 0) by omega),
            if_neg (show ¬(1 = 0) by omega),
            if_neg (show ¬((0x80 + s / 4096 % 64) &&& 0xC0 ≠ 0x80) by
              simp [(mask_80 (s / 4096 % 64) (by omega)).1]),
            if_neg (show ¬((0x80 + s / 64 % 64) &&& 0xC0 ≠ 0x80) by
              simp [(mask_80 (s / 64 % 64) (by omega)).1]),
            if_neg (show ¬((0x80 + s % 64) &&& 0xC0 ≠ 0x80) by
              simp [(mask_80 (s % 64) (by omega)).1])]
          rw [ih (c + 1) hrest, hm]
          simp [show (0x80 ≤ s) by omega]

/-- C7 counterexample: the growth rule at current capacity 8 with required size
100 yields 100, not the 128 the claim predicts (the capacity doubles only once
and then jumps to exactly the required size). -/
theorem C7_counterexample : ensure_capacity_cap 8 100 = 100 ∧ ensure_capacity_cap 8 100 ≠ 128 := by
  decide

/-- C7 (amended): the growth rule never returns less than the required size,
and on growth (required > current) the new capacity is the maximum of the
required size and one doubling of the current capacity (8 from capacity 0) -
doubling happens once, not repeatedly. -/
theorem C7_growth_rule (cap req : Nat) :
    req ≤ ensure_capacity_cap cap req ∧
    (req > cap → ensure_capacity_cap cap req = max (if cap = 0 then 8 else cap * 2) req) := by
  unfold ensure_capacity_cap
  dsimp only
  constructor
  · split_ifs <;> omega
  · intro h
    split_ifs <;> omega

/-- C7 witness: the amended growth rule applied at (8, 100). -/
theorem C7_growth_rule_witness :
    (100 > 8 ∧ ensure_capacity_cap 8 100 = max (if (8 : Nat) = 0 then 8 else 8 * 2) 100) :=
  ⟨by decide, (C7_growth_rule 8 100).2 (by decide)⟩

/-- C2 counterexample: a span beginning with the UTF-32LE byte-order mark
FF FE 00 00 is classified UTF16_LE, not UTF32_LE, because detect_encoding
checks the 2-byte UTF-16 marks before the 4-byte UTF-32 marks. -/
theorem C2_counterexample :
    detect_encoding [0xFF, 0xFE, 0x00, 0x00] (some 4) = Encoding.UTF16_LE ∧
    detect_encoding [0xFF, 0xFE, 0x00, 0x00] (some 4) ≠ Encoding.UTF32_LE := by decide

/-- C2 (amended): byte-order-mark classification in source order - the 3-byte
UTF-8 mark, then the 2-byte UTF-16 marks, then the 4-byte UTF-32 marks.  A span
beginning EF BB BF is UTF8, FE FF is UTF16_BE, FF FE is UTF16_LE (so
FF FE 00 00 is UTF16_LE and the UTF-32LE mark is never recognized), and
00 00 FE FF is UTF32_BE, each regardless of the bytes that follow. -/
theorem C2_bom_detection (rest : List Nat) :
    detect_encoding (0xEF :: 0xBB :: 0xBF :: rest) (some (3 + rest.length)) = Encoding.UTF8 ∧
    detect_encoding (0xFE :: 0xFF :: rest) (some (2 + rest.length)) = Encoding.UTF16_BE ∧
    detect_encoding (0xFF :: 0xFE :: rest) (some (2 + rest.length)) = Encoding.UTF16_LE ∧
    detect_encoding (0x00 :: 0x00 :: 0xFE :: 0xFF :: rest) (some (4 + rest.length)) =
      Encoding.UTF32_BE := by
  refine ⟨?_, ?_, ?_, ?_⟩ <;> simp [detect_encoding] <;> omega

/-- C4 counterexample: constructing from the single byte 0xC3 does not fail at
all - with the default scan-to-terminator length the constructor returns an
empty string with no error, and with explicit length 1 it returns one
(sign-extended) unit with no error.  The claimed MalformedSequence never
arises because a window shorter than 2 bytes is classified ASCII. -/
theorem C4_counterexample :
    (string_from_bytes [0xC3] none).2 = none ∧
    (string_from_bytes [0xC3] (some 1)).2 = none := by decide

/-- C4 (amended): the lone byte 0xC3 is classified ASCII by the length < 2 rule
of detect_encoding and construction succeeds - empty content under the
sentinel length, the single sign-extended unit 0xFFC3 under explicit length 1.
MalformedSequence does arise when a truncated 2-byte lead reaches the UTF-8
decoder, e.g. for the input 0x61 0x61 0xC3. -/
theorem C4_lone_c3 :
    detect_encoding [0xC3] none = Encoding.ASCII ∧
    string_from_bytes [0xC3] none = (⟨false, [], 8⟩, none) ∧
    (string_from_bytes [0xC3] (some 1)).1.units = [0xFFC3] ∧
    (string_from_bytes [0x61, 0x61, 0xC3] (some 3)).2 = some Err.malformedSequence := by decide

/-- C5: the ASCII decode path violates the one-unit-per-byte, zero-extension
claim in two ways.  With the default -1 length (the path every constructor and
append from a char pointer takes), the ASCII loop guard i < len_in compares
against the raw -1, so the loop never runs and Hello decodes to nothing.  With
an explicit length, bytes are cast through char (signed), so 0xFF becomes the
unit 0xFFFF and 0x90 becomes 0xFF90 instead of 0x00FF / 0x0090. -/
theorem C5_ascii_bug :
    detect_encoding [72, 101, 108, 108, 111] none = Encoding.ASCII ∧
    (string_from_bytes [72, 101, 108, 108, 111] none).1.units = [] ∧
    (string_from_bytes [72, 101, 108, 108, 111] none).2 = none ∧
    detect_encoding [0x61, 0x61, 0xFF, 0x90] (some 4) = Encoding.ASCII ∧
    (string_from_bytes [0x61, 0x61, 0xFF, 0x90] (some 4)).1.units =
      [0x61, 0x61, 0xFFFF, 0xFF90] := by decide

/-- C9: append of byte-string input does not write at the old length - it
clears the string and decodes the argument from scratch (and under the -1
sentinel the ASCII branch then produces nothing), while the unit and
string-argument appends do extend in place as claimed. -/
theorem C9_append_cstr_bug :
    (append_cstr (from_units [65] none) [66]).1.units = [] ∧
    (append_cstr (from_units [65] none) [66]).2 = none ∧
    (append_unit (from_units [65] none) 66).units = [65, 66] ∧
    (append_str (from_units [65] none) (from_units [66] none)).units = [65, 66] := by decide

/-- C10: find with an empty needle returns the start position when it is
strictly inside the content, and the npos sentinel from position length
onward. -/
theorem C10_find_empty_needle (s : List Nat) (pos : Nat) :
    (pos < s.length → find s [] pos = pos) ∧ (pos ≥ s.length → find s [] pos = npos) := by
  constructor <;> intro h
  · simp [find, show ¬pos ≥ s.length by omega]
  · simp [find, h]

/-- C10 witness: the empty-needle cases on the concrete haystack of two units
at positions 1 (inside) and 2 (= length). -/
theorem C10_find_empty_needle_witness :
    (1 < List.length [7, 8] ∧ find [7, 8] [] 1 = 1) ∧
    (2 ≥ List.length [7, 8] ∧ find [7, 8] [] 2 = npos) :=
  ⟨⟨by decide, (C10_find_empty_needle [7, 8] 1).1 (by decide)⟩,
   ⟨by decide, (C10_find_empty_needle [7, 8] 2).2 (by decide)⟩⟩

/-- C6 counterexample: a lone low surrogate is accepted by the UTF-16 decoder.
The byte input FF FE 00 DC is classified UTF16_LE, decodes without error, and
stores the unpaired low surrogate 0xDC00 (after the mark unit 0xFEFF). -/
theorem C6_counterexample :
    (string_from_bytes [0xFF, 0xFE, 0x00, 0xDC] (some 4)).2 = none ∧
    (string_from_bytes [0xFF, 0xFE, 0x00, 0xDC] (some 4)).1.units = [0xFEFF, 0xDC00] := by decide

/-- C3 counterexample to state preservation on failure: a string holding unit 65
whose char-pointer append receives bytes 61 C3 (truncated UTF-8 lead) reports
MalformedSequence but ends up empty, not with its prior content. -/
theorem C3_counterexample :
    (from_units [65] none).units = [65] ∧
    (append_cstr (from_units [65] none) [0x61, 0xC3]).2 = some Err.malformedSequence ∧
    (append_cstr (from_units [65] none) [0x61, 0xC3]).1.units ≠ [65] := by decide

/-- C3 (amended): a decode failure aborts the operation and surfaces the
specific error kind, and no partial sequence is returned as a success value;
but the claim that the target string keeps its prior observable state is
false - convert_to_utf16 resets the length to 0 before decoding, so the
result of an append of byte input (content and error alike) is a function of
the argument bytes alone, and a failing append loses the previously stored
content: appending the truncated UTF-8 input 0x61 0xC3 to a string holding
unit 65 raises MalformedSequence and leaves the string empty. -/
theorem C3_failure_clears_state :
    (∀ s t : Str, ∀ b : List Nat,
       (append_cstr s b).2 = (append_cstr t b).2 ∧
       (append_cstr s b).1.units = (append_cstr t b).1.units) ∧
    (from_units [65] none).units = [65] ∧
    (append_cstr (from_units [65] none) [0x61, 0xC3]).2 = some Err.malformedSequence ∧
    (append_cstr (from_units [65] none) [0x61, 0xC3]).1.units = [] := by
  refine ⟨?_, by decide, by decide, by decide⟩
  intro s t b
  exact convert_to_utf16_norm s t b none (detect_encoding b none)

/-- One append step keeps the length-capacity invariant and never shrinks the
capacity. -/
theorem astep_facts (s : Str) (op : AOp) :
    StrInv (astep s op) ∧ s.cap ≤ (astep s op).cap := by
  cases op with
  | unit c =>
    have h := Str_ensure_facts s (s.units.length + 1)
    simp only [astep, append_unit, StrInv]
    simp [h.1]
    omega
  | str t =>
    have h := Str_ensure_facts s (s.units.length + t.units.length)
    simp only [astep, append_str, StrInv]
    simp [h.1]
    omega
  | bytes b =>
    exact convert_to_utf16_inv s b none (detect_encoding b none)

/-- A whole sequence of appends keeps the invariant and never shrinks the
capacity. -/
theorem runAppends_facts (ops : List AOp) : ∀ s : Str, StrInv s →
    StrInv (runAppends s ops) ∧ s.cap ≤ (runAppends s ops).cap := by
  induction ops with
  | nil => intro s h; exact ⟨h, le_refl _⟩
  | cons op ops ih =>
    intro s h
    have h1 := astep_facts s op
    have h2 := ih (astep s op) h1.1
    exact ⟨h2.1, le_trans h1.2 h2.2⟩

/-- Every failure of the UTF-16LE decode loop is an invalid-surrogate error
(both throw sites of the loop report a surrogate problem). -/
theorem convert_utf16le_go_err (fuel : Nat) : ∀ bytes acc cap e,
    (convert_utf16le_go fuel bytes acc cap).1 = some e → e = Err.invalidSurrogate := by
  induction fuel with
  | zero => intro bytes acc cap e h; simp [convert_utf16le_go] at h
  | succ fuel ih =>
    intro bytes acc cap e h
    match bytes with
    | [] => simp [convert_utf16le_go] at h
    | b0 :: rest =>
      rw [convert_utf16le_go] at h
      dsimp only at h
      split_ifs at h with h1 h2 h3
      · simpa using h.symm
      · simpa using h.symm
      · exact ih _ _ _ _ h
      · exact ih _ _ _ _ h

/-- Every failure of the UTF-16BE decode loop is an invalid-surrogate error. -/
theorem convert_utf16be_go_err (fuel : Nat) : ∀ bytes acc cap e,
    (convert_utf16be_go fuel bytes acc cap).1 = some e → e = Err.invalidSurrogate := by
  induction fuel with
  | zero => intro bytes acc cap e h; simp [convert_utf16be_go] at h
  | succ fuel ih =>
    intro bytes acc cap e h
    match bytes with
    | [] => simp [convert_utf16be_go] at h
    | b0 :: rest =>
      rw [convert_utf16be_go] at h
      dsimp only at h
      split_ifs at h with h1 h2 h3
      · simpa using h.symm
      · simpa using h.symm
      · exact ih _ _ _ _ h
      · exact ih _ _ _ _ h

/-- A successful UTF-16LE decode leaves no unpaired high surrogate: every unit
the loop stores in the high range is immediately followed by a stored low
surrogate, because the loop checks the next unit and fails otherwise. -/
theorem convert_utf16le_go_paired (fuel : Nat) : ∀ bytes,
    (convert_utf16le_go fuel bytes [] 0).1 = none →
    highsPaired (convert_utf16le_go fuel bytes [] 0).2.1 = true := by
  induction fuel with
  | zero => intro bytes h; simp [convert_utf16le_go, highsPaired]
  | succ fuel ih =>
    intro bytes h
    match bytes with
    | [] => simp [convert_utf16le_go, highsPaired]
    | b0 :: rest =>
      rw [convert_utf16le_go] at h ⊢
      dsimp only at h ⊢
      by_cases h1 : 0xD800 ≤ (rest.getD 0 0) <<< 8 ||| b0 ∧ (rest.getD 0 0) <<< 8 ||| b0 ≤ 0xDBFF
      · rw [if_pos h1] at h ⊢
        by_cases h2 : rest.length < 2
        · rw [if_pos h2] at h
          simp at h
        · rw [if_neg h2] at h ⊢
          by_cases h3 : (rest.getD 2 0) <<< 8 ||| rest.getD 1 0 < 0xDC00 ∨
              (rest.getD 2 0) <<< 8 ||| rest.getD 1 0 > 0xDFFF
          · rw [if_pos h3] at h
            simp at h
          · rw [if_neg h3] at h ⊢
            have hn := convert_utf16le_go_norm fuel (rest.drop 3)
              (([] ++ [(rest.getD 0 0) <<< 8 ||| b0]) ++ [(rest.getD 2 0) <<< 8 ||| rest.getD 1 0])
              (ensure_capacity_cap (ensure_capacity_cap 0 (List.length ([] : List Nat) + 1))
                (([] ++ [(rest.getD 0 0) <<< 8 ||| b0]).length + 1))
            rw [hn.1] at h
            rw [hn.2]
            have hp := ih (rest.drop 3) h
            have hhigh : isHighSurr ((rest.getD 0 0) <<< 8 ||| b0) = true := by
              simp only [isHighSurr, decide_eq_true_eq]
              omega
            have hlownothigh : isHighSurr ((rest.getD 2 0) <<< 8 ||| rest.getD 1 0) = false := by
              simp only [isHighSurr, decide_eq_false_iff_not]
              omega
            have hlow : isLowSurr ((rest.getD 2 0) <<< 8 ||| rest.getD 1 0) = true := by
              simp only [isLowSurr, decide_eq_true_eq]
              omega
            simp only [List.nil_append, List.cons_append]
            simp only [highsPaired, hhigh, hlownothigh, hlow, if_true, if_false,
              Bool.true_and, Bool.false_eq_true, Bool.and_eq_true]
            exact hp
      · rw [if_neg h1] at h ⊢
        have hn := convert_utf16le_go_norm fuel (rest.drop 1)
          ([] ++ [(rest.getD 0 0) <<< 8 ||| b0])
          (ensure_capacity_cap 0 (List.length ([] : List Nat) + 1))
        rw [hn.1] at h
        rw [hn.2]
        have hp := ih (rest.drop 1) h
        have hhigh : isHighSurr ((rest.getD 0 0) <<< 8 ||| b0) = false := by
          simp only [isHighSurr, decide_eq_false_iff_not]
          omega
        simp only [List.nil_append, List.cons_append]
        simp only [highsPaired, hhigh, Bool.false_eq_true, if_false]
        exact hp

/-- A successful UTF-16BE decode leaves no unpaired high surrogate. -/
theorem convert_utf16be_go_paired (fuel : Nat) : ∀ bytes,
    (convert_utf16be_go fuel bytes [] 0).1 = none →
    highsPaired (convert_utf16be_go fuel bytes [] 0).2.1 = true := by
  induction fuel with
  | zero => intro bytes h; simp [convert_utf16be_go, highsPaired]
  | succ fuel ih =>
    intro bytes h
    match bytes with
    | [] => simp [convert_utf16be_go, highsPaired]
    | b0 :: rest =>
      rw [convert_utf16be_go] at h ⊢
      dsimp only at h ⊢
      by_cases h1 : 0xD800 ≤ b0 <<< 8 ||| rest.getD 0 0 ∧ b0 <<< 8 ||| rest.getD 0 0 ≤ 0xDBFF
      · rw [if_pos h1] at h ⊢
        by_cases h2 : rest.length < 2
        · rw [if_pos h2] at h
          simp at h
        · rw [if_neg h2] at h ⊢
          by_cases h3 : (rest.getD 1 0) <<< 8 ||| rest.getD 2 0 < 0xDC00 ∨
              (rest.getD 1 0) <<< 8 ||| rest.getD 2 0 > 0xDFFF
          · rw [if_pos h3] at h
            simp at h
          · rw [if_neg h3] at h ⊢
            have hn := convert_utf16be_go_norm fuel (rest.drop 3)
              (([] ++ [b0 <<< 8 ||| rest.getD 0 0]) ++ [(rest.getD 1 0) <<< 8 ||| rest.getD 2 0])
              (ensure_capacity_cap (ensure_capacity_cap 0 (List.length ([] : List Nat) + 1))
                (([] ++ [b0 <<< 8 ||| rest.getD 0 0]).length + 1))
            rw [hn.1] at h
            rw [hn.2]
            have hp := ih (rest.drop 3) h
            have hhigh : isHighSurr (b0 <<< 8 ||| rest.getD 0 0) = true := by
              simp only [isHighSurr, decide_eq_true_eq]
              omega
            have hlownothigh : isHighSurr ((rest.getD 1 0) <<< 8 ||| rest.getD 2 0) = false := by
              simp only [isHighSurr, decide_eq_false_iff_not]
              omega
            have hlow : isLowSurr ((rest.getD 1 0) <<< 8 ||| rest.getD 2 0) = true := by
              simp only [isLowSurr, decide_eq_true_eq]
              omega
            simp only [List.nil_append, List.cons_append]
            simp only [highsPaired, hhigh, hlownothigh, hlow, if_true, if_false,
              Bool.true_and, Bool.false_eq_true, Bool.and_eq_true]
            exact hp
      · rw [if_neg h1] at h ⊢
        have hn := convert_utf16be_go_norm fuel (rest.drop 1)
          ([] ++ [b0 <<< 8 ||| rest.getD 0 0])
          (ensure_capacity_cap 0 (List.length ([] : List Nat) + 1))
        rw [hn.1] at h
        rw [hn.2]
        have hp := ih (rest.drop 1) h
        have hhigh : isHighSurr (b0 <<< 8 ||| rest.getD 0 0) = false := by
          simp only [isHighSurr, decide_eq_false_iff_not]
          omega
        simp only [List.nil_append, List.cons_append]
        simp only [highsPaired, hhigh, Bool.false_eq_true, if_false]
        exact hp

/-- C6 (amended): in both endiannesses, a high surrogate that is not
immediately followed by a valid low surrogate makes the UTF-16 decode fail -
so a successful decode stores no unpaired high surrogate - and every failure
of the UTF-16 decoders surfaces as InvalidSurrogate; but the second half of
the claim is false: a low surrogate with no preceding high surrogate is
accepted and stored verbatim, as the byte input FF FE 00 DC shows. -/
theorem C6_utf16_surrogates :
    (∀ s w, (convert_utf16le_to_utf16 s w).2 = none →
       highsPaired (convert_utf16le_to_utf16 s w).1.units = true) ∧
    (∀ s w e, (convert_utf16le_to_utf16 s w).2 = some e → e = Err.invalidSurrogate) ∧
    (∀ s w, (convert_utf16be_to_utf16 s w).2 = none →
       highsPaired (convert_utf16be_to_utf16 s w).1.units = true) ∧
    (∀ s w e, (convert_utf16be_to_utf16 s w).2 = some e → e = Err.invalidSurrogate) ∧
    (string_from_bytes [0xFF, 0xFE, 0x00, 0xDC] (some 4)).2 = none ∧
    (string_from_bytes [0xFF, 0xFE, 0x00, 0xDC] (some 4)).1.units = [0xFEFF, 0xDC00] := by
  refine ⟨?_, ?_, ?_, ?_, by decide, by decide⟩
  · intro s w h
    have hnorm := convert_utf16le_go_norm w.length w [] (s.ensure_capacity (w.length / 2)).cap
    rcases hX : convert_utf16le_go w.length w [] (s.ensure_capacity (w.length / 2)).cap with
      ⟨e, us, c⟩
    rw [hX] at hnorm
    unfold convert_utf16le_to_utf16 at h ⊢
    dsimp only at h ⊢
    rw [hX] at h ⊢
    cases e with
    | some e0 => simp at h
    | none =>
      have h1 : (convert_utf16le_go w.length w [] 0).1 = none := by
        simpa using hnorm.1.symm
      have h2 : us = (convert_utf16le_go w.length w [] 0).2.1 := by
        simpa using hnorm.2
      have hp := convert_utf16le_go_paired w.length w h1
      simpa [h2] using hp
  · intro s w e h
    rcases hX : convert_utf16le_go w.length w [] (s.ensure_capacity (w.length / 2)).cap with
      ⟨e2, us, c⟩
    unfold convert_utf16le_to_utf16 at h
    dsimp only at h
    rw [hX] at h
    cases e2 with
    | none => simp at h
    | some e3 =>
      have : e3 = e := by simpa using h
      subst this
      exact convert_utf16le_go_err w.length w [] _ e3 (by rw [hX])
  · intro s w h
    have hnorm := convert_utf16be_go_norm w.length w [] (s.ensure_capacity (w.length / 2)).cap
    rcases hX : convert_utf16be_go w.length w [] (s.ensure_capacity (w.length / 2)).cap with
      ⟨e, us, c⟩
    rw [hX] at hnorm
    unfold convert_utf16be_to_utf16 at h ⊢
    dsimp only at h ⊢
    rw [hX] at h ⊢
    cases e with
    | some e0 => simp at h
    | none =>
      have h1 : (convert_utf16be_go w.length w [] 0).1 = none := by
        simpa using hnorm.1.symm
      have h2 : us = (convert_utf16be_go w.length w [] 0).2.1 := by
        simpa using hnorm.2
      have hp := convert_utf16be_go_paired w.length w h1
      simpa [h2] using hp
  · intro s w e h
    rcases hX : convert_utf16be_go w.length w [] (s.ensure_capacity (w.length / 2)).cap with
      ⟨e2, us, c⟩
    unfold convert_utf16be_to_utf16 at h
    dsimp only at h
    rw [hX] at h
    cases e2 with
    | none => simp at h
    | some e3 =>
      have : e3 = e := by simpa using h
      subst this
      exact convert_utf16be_go_err w.length w [] _ e3 (by rw [hX])

/-- C6 witness: the pairedness guarantee applied to the concrete two-byte
input 00 DC (one unit, a lone low surrogate - accepted, and vacuously
paired on the high side). -/
theorem C6_utf16_surrogates_witness :
    (convert_utf16le_to_utf16 ⟨true, [], 0⟩ [0x00, 0xDC]).2 = none ∧
    highsPaired (convert_utf16le_to_utf16 ⟨true, [], 0⟩ [0x00, 0xDC]).1.units = true :=
  ⟨by decide, C6_utf16_surrogates.1 ⟨true, [], 0⟩ [0x00, 0xDC] (by decide)⟩

/-- C8 counterexample: the second half of the invariant, capacity = 0 exactly
when the pointer is null, fails after two operations.  Copying a
default-constructed string (length 0, capacity 8) leaves the copy with a null
pointer but capacity 8, and shrink_to_fit on a default-constructed string
leaves capacity 0 with a non-null pointer. -/
theorem C8_counterexample :
    (copy default_string).cap = 8 ∧ (copy default_string).ptrNull = true ∧
    (shrink_to_fit default_string).cap = 0 ∧ (shrink_to_fit default_string).ptrNull = false := by
  decide

/-- C8 (amended): the first half of the invariant, length ≤ capacity, does
hold after every operation (construction from every source, copy, move,
append, insert, erase, clear, reserve, shrink_to_fit, resize), and across any
sequence of appends starting from any invariant state the capacity is
non-decreasing with the invariant holding after every single operation.  The
second half, capacity = 0 exactly when the pointer is null, is dropped: the
counterexample shows it fails after copy and after shrink_to_fit. -/
theorem C8_invariants :
    StrInv default_string ∧
    (∀ lit l, StrInv (from_units lit l)) ∧
    (∀ b l, StrInv (string_from_bytes b l).1) ∧
    (∀ s, StrInv s → StrInv (copy s)) ∧
    (∀ s, StrInv s → StrInv (move s).1 ∧ StrInv (move s).2) ∧
    (∀ s c, StrInv (append_unit s c)) ∧
    (∀ s t, StrInv (append_str s t)) ∧
    (∀ s b, StrInv (append_cstr s b).1) ∧
    (∀ s p t, StrInv s → StrInv (insert s p t).1) ∧
    (∀ s p n, StrInv s → StrInv (erase s p n).1) ∧
    (∀ s, StrInv (clear s)) ∧
    (∀ s n, StrInv s → StrInv (reserve s n)) ∧
    (∀ s, StrInv (shrink_to_fit s)) ∧
    (∀ s n, StrInv (resize s n)) ∧
    (∀ s n c, StrInv s → StrInv (resize_fill s n c)) ∧
    (∀ s op, StrInv (astep s op) ∧ s.cap ≤ (astep s op).cap) ∧
    (∀ s ops, StrInv s → StrInv (runAppends s ops) ∧ s.cap ≤ (runAppends s ops).cap) := by
  refine ⟨by decide, ?_, ?_, ?_, ?_, ?_, ?_, ?_, ?_, ?_, ?_, ?_, ?_, ?_, ?_, ?_, ?_⟩
  · intro lit l
    have h := Str_ensure_facts ⟨true, [], 0⟩ (match l with | none => strlen lit | some m => m)
    simp only [from_units, StrInv]
    simp [h.1]
    have := h.2.2
    have hl := List.length_take_le (match l with | none => strlen lit | some m => m) lit
    omega
  · intro b l
    exact (convert_to_utf16_inv ⟨true, [], 0⟩ b l (detect_encoding b l)).1
  · intro s h
    simpa [copy, StrInv] using h
  · intro s h
    exact ⟨h, by simp [move, StrInv]⟩
  · intro s c
    exact (astep_facts s (.unit c)).1
  · intro s t
    exact (astep_facts s (.str t)).1
  · intro s b
    exact (astep_facts s (.bytes b)).1
  · intro s p t h
    have hf := Str_ensure_facts s (s.units.length + t.units.length)
    simp only [insert, StrInv]
    split_ifs with hp
    · exact h
    · simp [hf.1]
      have := hf.2.2
      omega
  · intro s p n h
    simp only [erase, StrInv]
    split_ifs with hp h2
    · exact h
    · simp only [StrInv] at h
      simp
      omega
    · simp only [StrInv] at h
      simp
      omega
  · intro s
    simp [clear, StrInv]
  · intro s n h
    have hf := Str_ensure_facts s n
    simp only [reserve, StrInv] at h ⊢
    rw [hf.1]
    omega
  · intro s
    simp [shrink_to_fit, StrInv]
  · intro s n
    have hf := Str_ensure_facts s n
    simp only [resize, StrInv]
    simp [hf.1]
    have := hf.2.2
    omega
  · intro s n c h
    simp only [resize_fill, StrInv]
    split_ifs with hn
    · have hf := Str_ensure_facts s n
      simp only [reserve]
      simp [hf.1]
      have := hf.2.2
      omega
    · have hf := Str_ensure_facts s n
      simp only [resize]
      simp [hf.1]
      have := hf.2.2
      omega
  · intro s op
    exact astep_facts s op
  · intro s ops h
    exact runAppends_facts ops s h

/-- C8 witness: the amended invariant applied to concrete states - a copy of a
one-unit string keeps the invariant, and a two-step append sequence from the
default string keeps the invariant with non-decreasing capacity. -/
theorem C8_invariants_witness :
    StrInv (from_units [65] none) ∧ StrInv (copy (from_units [65] none)) ∧
    StrInv (runAppends default_string [AOp.unit 66, AOp.unit 67]) ∧
    default_string.cap ≤ (runAppends default_string [AOp.unit 66, AOp.unit 67]).cap :=
  ⟨by decide, C8_invariants.2.2.2.1 (from_units [65] none) (by decide),
   (C8_invariants.2.2.2.2.2.2.2.2.2.2.2.2.2.2.2.2 default_string [AOp.unit 66, AOp.unit 67]
      (by decide)).1,
   (C8_invariants.2.2.2.2.2.2.2.2.2.2.2.2.2.2.2.2 default_string [AOp.unit 66, AOp.unit 67]
      (by decide)).2⟩

theorem detect_encode_ascii (b : List Nat) (h : ∀ x ∈ b, 0 < x ∧ x < 0x80) :
    detect_encoding b (some b.length) = Encoding.ASCII := by
  unfold detect_encoding
  dsimp only
  by_cases hlen : b.length < 2
  · rw [if_pos hlen]
  · have hb0 : 0 < b.getD 0 0 ∧ b.getD 0 0 < 0x80 := by
      match b, hlen with
      | x :: r, _ => exact ⟨(h x (by simp)).1, (h x (by simp)).2⟩
    rw [if_neg hlen,
        if_neg (by rintro ⟨-, h1, -⟩; omega),
        if_neg (by rintro ⟨h1, -⟩; omega),
        if_neg (by rintro ⟨h1, -⟩; omega),
        if_neg (by rintro ⟨-, h1, -⟩; omega),
        if_neg (by rintro ⟨-, h1, -⟩; omega)]
    unfold detect_utf8_heuristic
    rw [List.take_length, all_ascii_go b 0 (fun x hx => by have := (h x hx).2; omega)]
    simp

theorem detect_encode_multi (ss : List Nat) (hv : ∀ s ∈ ss, scalarValid s)
    (hm : hasMulti ss = true) :
    detect_encoding (utf8Encode ss) (some (utf8Encode ss).length) = Encoding.UTF8 := by
  match ss, hm with
  | s :: ss2, hm =>
    have hv0 := hv s (by simp)
    have hfir := encScalar_first s hv0
    have hget : (utf8Encode (s :: ss2)).getD 0 0 = (utf8EncodeScalar s).getD 0 0 := by
      show ((utf8EncodeScalar s :: List.map utf8EncodeScalar ss2).flatten).getD 0 0 = _
      rw [List.flatten_cons]
      exact List.getD_append _ _ _ _ (by have := encScalar_len s; omega)
    have hlen := hasMulti_len (s :: ss2) hm
    unfold detect_encoding
    dsimp only
    rw [if_neg (by omega)]
    by_cases hbom : 3 ≤ (utf8Encode (s :: ss2)).length ∧
        (utf8Encode (s :: ss2)).getD 0 0 = 0xEF ∧ (utf8Encode (s :: ss2)).getD 1 0 = 0xBB ∧
        (utf8Encode (s :: ss2)).getD 2 0 = 0xBF
    · rw [if_pos hbom]
    · rw [if_neg hbom,
          if_neg (by rintro ⟨h1, -⟩; rw [hget] at h1; omega),
          if_neg (by rintro ⟨h1, -⟩; rw [hget] at h1; omega),
          if_neg (by rintro ⟨-, h1, -⟩; rw [hget] at h1; omega),
          if_neg (by rintro ⟨-, h1, -⟩; rw [hget] at h1; omega)]
      unfold detect_utf8_heuristic
      rw [List.take_length, heuristic_encode (s :: ss2) 0 hv]
      simp [hm]
theorem utf8_decode_encode (ss : List Nat) : ∀ fuel, (∀ s ∈ ss, scalarValid s) →
    ss.length ≤ fuel →
    (convert_utf8_go fuel (utf8Encode ss) [] 0).1 = none ∧
    (convert_utf8_go fuel (utf8Encode ss) [] 0).2.1 = utf16Rep ss := by
  induction ss with
  | nil =>
    intro fuel h hf
    match fuel with
    | 0 => simp [convert_utf8_go, utf8Encode, utf16Rep]
    | fuel + 1 => simp [convert_utf8_go, utf8Encode, utf16Rep]
  | cons s ss ih =>
    intro fuel h hf
    obtain ⟨hpos, hle, hns⟩ := h s (by simp)
    have hrest : ∀ x ∈ ss, scalarValid x := fun x hx => h x (by simp [hx])
    match fuel, hf with
    | fuel + 1, hf =>
    have hf2 : ss.length ≤ fuel := by simp at hf; omega
    by_cases hs1 : s < 0x80
    · have henc : utf8Encode (s :: ss) = s :: utf8Encode ss := by
        simp [utf8Encode, utf8EncodeScalar, hs1]
      have hrep : utf16Rep (s :: ss) = s :: utf16Rep ss := by
        simp [utf16Rep, utf16OfScalar, show s < 0x10000 by omega]
      rw [henc, hrep, convert_utf8_go]
      dsimp only
      rw [if_pos hs1]
      have hn := convert_utf8_go_norm fuel (utf8Encode ss) ([] ++ [s])
        (ensure_capacity_cap 0 (List.length ([] : List Nat) + 1))
      constructor
      · rw [hn.1, (ih fuel hrest hf2).1]
      · rw [hn.2, (ih fuel hrest hf2).2]
        simp
    · by_cases hs2 : s < 0x800
      · have henc : utf8Encode (s :: ss) =
            (0xC0 + s / 64) :: (0x80 + s % 64) :: utf8Encode ss := by
          simp [utf8Encode, utf8EncodeScalar, hs1, hs2]
        have hrep : utf16Rep (s :: ss) = s :: utf16Rep ss := by
          simp [utf16Rep, utf16OfScalar, show s < 0x10000 by omega]
        rw [henc, hrep, convert_utf8_go]
        dsimp only [List.getD_cons_zero, List.getD_cons_succ, List.length_cons]
        rw [if_neg (show ¬(0xC0 + s / 64 < 0x80) by omega),
            if_pos ((mask_c0 (s / 64) (by omega)).1),
            if_neg (show ¬((utf8Encode ss).length + 1 < 1) by omega),
            if_neg (show ¬((0x80 + s % 64) &&& 0xC0 ≠ 0x80) by
              simp [(mask_80 (s % 64) (by omega)).1])]
        have hcp : (((0xC0 + s / 64) &&& 0x1F) <<< 6) ||| ((0x80 + s % 64) &&& 0x3F) = s := by
          rw [(mask_c0 (s / 64) (by omega)).2, (mask_80 (s % 64) (by omega)).2,
              lor_shift6 (by omega)]
          omega
        rw [hcp]
        simp only [List.drop_succ_cons, List.drop_zero]
        have hn := convert_utf8_go_norm fuel (utf8Encode ss) ([] ++ [s])
          (ensure_capacity_cap 0 (List.length ([] : List Nat) + 1))
        constructor
        · rw [hn.1, (ih fuel hrest hf2).1]
        · rw [hn.2, (ih fuel hrest hf2).2]
          simp
      · by_cases hs3 : s < 0x10000
        · have henc : utf8Encode (s :: ss) =
              (0xE0 + s / 4096) :: (0x80 + s / 64 % 64) :: (0x80 + s % 64) ::
                utf8Encode ss := by
            simp [utf8Encode, utf8EncodeScalar, hs1, hs2, hs3]
          have hrep : utf16Rep (s :: ss) = s :: utf16Rep ss := by
            simp [utf16Rep, utf16OfScalar, show s < 0x10000 by omega]
          rw [henc, hrep, convert_utf8_go]
          dsimp only [List.getD_cons_zero, List.getD_cons_succ, List.length_cons]
          rw [if_neg (show ¬(0xE0 + s / 4096 < 0x80) by omega),
              if_neg (show ¬((0xE0 + s / 4096) &&& 0xE0 = 0xC0) by
                rw [(mask_e0 (s / 4096) (by omega)).1]
                omega),
              if_pos ((mask_e0 (s / 4096) (by omega)).2.1),
              if_neg (show ¬((utf8Encode ss).length + 1 + 1 < 2) by omega),
              if_neg (show ¬((0x80 + s / 64 % 64) &&& 0xC0 ≠ 0x80 ∨
                  (0x80 + s % 64) &&& 0xC0 ≠ 0x80) by
                simp [(mask_80 (s / 64 % 64) (by omega)).1, (mask_80 (s % 64) (by omega)).1])]
          have hcp : ((((0xE0 + s / 4096) &&& 0x0F) <<< 12) |||
              (((0x80 + s / 64 % 64) &&& 0x3F) <<< 6)) ||| ((0x80 + s % 64) &&& 0x3F) = s := by
            rw [(mask_e0 (s / 4096) (by omega)).2.2, (mask_80 (s / 64 % 64) (by omega)).2,
                (mask_80 (s % 64) (by omega)).2,
                show (s / 64 % 64) <<< 6 = s / 64 % 64 * 64 by rw [Nat.shiftLeft_eq],
                lor_shift12 (by omega),
                show s / 4096 * 4096 + s / 64 % 64 * 64 = (s / 4096 * 64 + s / 64 % 64) * 64 by
                  ring,
                lor_mul64 (by omega)]
            omega
          rw [hcp]
          simp only [List.drop_succ_cons, List.drop_zero]
          have hn := convert_utf8_go_norm fuel (utf8Encode ss) ([] ++ [s])
            (ensure_capacity_cap 0 (List.length ([] : List Nat) + 1))
          constructor
          · rw [hn.1, (ih fuel hrest hf2).1]
          · rw [hn.2, (ih fuel hrest hf2).2]
            simp
        · have henc : utf8Encode (s :: ss) =
              (0xF0 + s / 262144) :: (0x80 + s / 4096 % 64) :: (0x80 + s / 64 % 64) ::
                (0x80 + s % 64) :: utf8Encode ss := by
            simp [utf8Encode, utf8EncodeScalar, hs1, hs2, hs3]
          have hrep : utf16Rep (s :: ss) =
              (0xD800 + (s - 0x10000) / 1024) :: (0xDC00 + (s - 0x10000) % 1024) ::
                utf16Rep ss := by
            simp [utf16Rep, utf16OfScalar, show ¬(s < 0x10000) by omega]
          rw [henc, hrep, convert_utf8_go]
          dsimp only [List.getD_cons_zero, List.getD_cons_succ, List.length_cons]
          rw [if_neg (show ¬(0xF0 + s / 262144 < 0x80) by omega),
              if_neg (show ¬((0xF0 + s / 262144) &&& 0xE0 = 0xC0) by
                rw [(mask_f0 (s / 262144) (by omega)).1]
                omega),
              if_neg (show ¬((0xF0 + s / 262144) &&& 0xF0 = 0xE0) by
                rw [(mask_f0 (s / 262144) (by omega)).2.1]
                omega),
              if_pos ((mask_f0 (s / 262144) (by omega)).2.2.1),
              if_neg (show ¬((utf8Encode ss).length + 1 + 1 + 1 < 3) by omega),
              if_neg (show ¬((0x80 + s / 4096 % 64) &&& 0xC0 ≠ 0x80 ∨
                  (0x80 + s / 64 % 64) &&& 0xC0 ≠ 0x80 ∨
                  (0x80 + s % 64) &&& 0xC0 ≠ 0x80) by
                simp [(mask_80 (s / 4096 % 64) (by omega)).1,
                  (mask_80 (s / 64 % 64) (by omega)).1, (mask_80 (s % 64) (by omega)).1])]
          have hcp : (((((0xF0 + s / 262144) &&& 0x07) <<< 18) |||
              (((0x80 + s / 4096 % 64) &&& 0x3F) <<< 12)) |||
              (((0x80 + s / 64 % 64) &&& 0x3F) <<< 6)) ||| ((0x80 + s % 64) &&& 0x3F) = s := by
            rw [(mask_f0 (s / 262144) (by omega)).2.2.2, (mask_80 (s / 4096 % 64) (by omega)).2,
                (mask_80 (s / 64 % 64) (by omega)).2, (mask_80 (s % 64) (by omega)).2,
                show (s / 4096 % 64) <<< 12 = s / 4096 % 64 * 4096 by
                  rw [Nat.shiftLeft_eq],
                lor_shift18 (by omega),
                show (s / 64 % 64) <<< 6 = s / 64 % 64 * 64 by rw [Nat.shiftLeft_eq],
                show s / 262144 * 262144 + s / 4096 % 64 * 4096 =
                    (s / 262144 * 64 + s / 4096 % 64) * 4096 by ring,
                lor_mul4096 (by omega),
                show (s / 262144 * 64 + s / 4096 % 64) * 4096 + s / 64 % 64 * 64 =
                    ((s / 262144 * 64 + s / 4096 % 64) * 64 + s / 64 % 64) * 64 by ring,
                lor_mul64 (by omega)]
            omega
          rw [hcp]
          have hcp2 : (s + 0xFFFF0000) % 0x100000000 = s - 0x10000 := by omega
          rw [hcp2]
          have hhi : 0xD800 ||| (((s - 0x10000) >>> 10) &&& 0x3FF) =
              0xD800 + (s - 0x10000) / 1024 := by
            rw [(shr_eq_div (s - 0x10000)).2.1, and_1023, Nat.mod_eq_of_lt (by omega),
                or_tag_d800 _ (by omega)]
          have hlo : 0xDC00 ||| ((s - 0x10000) &&& 0x3FF) = 0xDC00 + (s - 0x10000) % 1024 := by
            rw [and_1023, or_tag_dc00 _ (by omega)]
          rw [hhi, hlo]
          simp only [List.drop_succ_cons, List.drop_zero]
          have hn := convert_utf8_go_norm fuel (utf8Encode ss)
            ([] ++ [0xD800 + (s - 0x10000) / 1024, 0xDC00 + (s - 0x10000) % 1024])
            (ensure_capacity_cap 0 (List.length ([] : List Nat) + 2))
          constructor
          · rw [hn.1, (ih fuel hrest hf2).1]
          · rw [hn.2, (ih fuel hrest hf2).2]
            simp
theorem throw_away_encode (ss : List Nat) : ∀ fuel, (∀ s ∈ ss, scalarValid s) →
    ss.length ≤ fuel →
    throw_away_go fuel (utf16Rep ss) = utf8Encode ss := by
  induction ss with
  | nil =>
    intro fuel h hf
    match fuel with
    | 0 => simp [throw_away_go, utf16Rep, utf8Encode]
    | fuel + 1 => simp [throw_away_go, utf16Rep, utf8Encode]
  | cons s ss ih =>
    intro fuel h hf
    obtain ⟨hpos, hle, hns⟩ := h s (by simp)
    have hrest : ∀ x ∈ ss, scalarValid x := fun x hx => h x (by simp [hx])
    match fuel, hf with
    | fuel + 1, hf =>
    have hf2 : ss.length ≤ fuel := by simp at hf; omega
    by_cases hs3 : s < 0x10000
    · have hrep : utf16Rep (s :: ss) = s :: utf16Rep ss := by
        simp [utf16Rep, utf16OfScalar, hs3]
      rw [hrep, throw_away_go]
      dsimp only
      by_cases hs1 : s < 0x80
      · have henc : utf8Encode (s :: ss) = s :: utf8Encode ss := by
          simp [utf8Encode, utf8EncodeScalar, hs1]
        rw [if_pos hs1, ih fuel hrest hf2, henc]
      · by_cases hs2 : s < 0x800
        · have henc : utf8Encode (s :: ss) =
              (0xC0 + s / 64) :: (0x80 + s % 64) :: utf8Encode ss := by
            simp [utf8Encode, utf8EncodeScalar, hs1, hs2]
          rw [if_neg hs1, if_pos hs2]
          have hb1 : 0xC0 ||| (s >>> 6) = 0xC0 + s / 64 := by
            rw [(shr_eq_div s).1, or_tag_c0 _ (by omega)]
          have hb2 : 0x80 ||| (s &&& 0x3F) = 0x80 + s % 64 := by
            rw [and_63, or_tag_80 _ (by omega)]
          rw [hb1, hb2, ih fuel hrest hf2, henc]
        · have henc : utf8Encode (s :: ss) =
              (0xE0 + s / 4096) :: (0x80 + s / 64 % 64) :: (0x80 + s % 64) ::
                utf8Encode ss := by
            simp [utf8Encode, utf8EncodeScalar, hs1, hs2, hs3]
          rw [if_neg hs1, if_neg hs2,
              if_neg (show ¬(0xD800 ≤ s ∧ s ≤ 0xDBFF) by omega),
              if_neg (show ¬(0xDC00 ≤ s ∧ s ≤ 0xDFFF) by omega)]
          have hb1 : 0xE0 ||| (s >>> 12) = 0xE0 + s / 4096 := by
            rw [(shr_eq_div s).2.2.1, or_tag_e0 _ (by omega)]
          have hb2 : 0x80 ||| ((s >>> 6) &&& 0x3F) = 0x80 + s / 64 % 64 := by
            rw [(shr_eq_div s).1, and_63, or_tag_80 _ (by omega)]
          have hb3 : 0x80 ||| (s &&& 0x3F) = 0x80 + s % 64 := by
            rw [and_63, or_tag_80 _ (by omega)]
          rw [hb1, hb2, hb3, ih fuel hrest hf2, henc]
    · have hrep : utf16Rep (s :: ss) =
          (0xD800 + (s - 0x10000) / 1024) :: (0xDC00 + (s - 0x10000) % 1024) ::
            utf16Rep ss := by
        simp [utf16Rep, utf16OfScalar, hs3]
      have henc : utf8Encode (s :: ss) =
          (0xF0 + s / 262144) :: (0x80 + s / 4096 % 64) :: (0x80 + s / 64 % 64) ::
            (0x80 + s % 64) :: utf8Encode ss := by
        simp [utf8Encode, utf8EncodeScalar, show ¬(s < 0x80) by omega,
          show ¬(s < 0x800) by omega, hs3]
      rw [hrep, throw_away_go]
      dsimp only
      rw [List.getD_cons_zero]
      rw [if_neg (show ¬(0xD800 + (s - 0x10000) / 1024 < 0x80) by omega),
          if_neg (show ¬(0xD800 + (s - 0x10000) / 1024 < 0x800) by omega),
          if_pos (show 0xD800 ≤ 0xD800 + (s - 0x10000) / 1024 ∧
            0xD800 + (s - 0x10000) / 1024 ≤ 0xDBFF by omega),
          if_pos (show 0xDC00 ≤ 0xDC00 + (s - 0x10000) % 1024 ∧
            0xDC00 + (s - 0x10000) % 1024 ≤ 0xDFFF by omega)]
      have hcp : (0x10000 + ((0xD800 + (s - 0x10000) / 1024 - 0xD800) <<< 10)) +
          (0xDC00 + (s - 0x10000) % 1024 - 0xDC00) = s := by
        rw [show 0xD800 + (s - 0x10000) / 1024 - 0xD800 = (s - 0x10000) / 1024 by omega,
            show ((s - 0x10000) / 1024) <<< 10 = (s - 0x10000) / 1024 * 1024 by
              rw [Nat.shiftLeft_eq]]
        omega
      rw [hcp]
      have hb1 : 0xF0 ||| (s >>> 18) = 0xF0 + s / 262144 := by
        rw [(shr_eq_div s).2.2.2, or_tag_f0 _ (by omega)]
      have hb2 : 0x80 ||| ((s >>> 12) &&& 0x3F) = 0x80 + s / 4096 % 64 := by
        rw [(shr_eq_div s).2.2.1, and_63, or_tag_80 _ (by omega)]
      have hb3 : 0x80 ||| ((s >>> 6) &&& 0x3F) = 0x80 + s / 64 % 64 := by
        rw [(shr_eq_div s).1, and_63, or_tag_80 _ (by omega)]
      have hb4 : 0x80 ||| (s &&& 0x3F) = 0x80 + s % 64 := by
        rw [and_63, or_tag_80 _ (by omega)]
      rw [hb1, hb2, hb3, hb4]
      simp only [List.drop_succ_cons, List.drop_zero]
      rw [ih fuel hrest hf2, henc]
theorem u16Scalar_len (s : Nat) : 1 ≤ (utf16OfScalar s).length := by
  unfold utf16OfScalar
  split_ifs <;> simp

theorem utf16Rep_len_lb (ss : List Nat) : ss.length ≤ (utf16Rep ss).length := by
  induction ss with
  | nil => simp [utf16Rep]
  | cons s ss ih =>
    have := u16Scalar_len s
    simp [utf16Rep] at ih ⊢
    omega

theorem ensure_ptr_false (n : Nat) (h : 1 ≤ n) :
    (Str.ensure_capacity ⟨true, [], 0⟩ n).ptrNull = false := by
  unfold Str.ensure_capacity
  rw [if_pos (show n > (⟨true, [], 0⟩ : Str).cap by exact h)]

theorem withCap_ptrNull (s : Str) (c : Nat) (h : s.ptrNull = false) :
    (s.withCap c).ptrNull = false := by
  unfold Str.withCap
  dsimp only
  split_ifs <;> simp [h]

/-- C1: the round-trip claim fails in the code through an undersized output
buffer.  Decoding the spec example F0 9F 98 80 (U+1F600) succeeds with units
D83D DE00, and the re-encode loop of string::throw_away computes exactly the
original four bytes; but throw_away allocates only len + 1 = 3 chars for the
output, so the fourth byte is written out of bounds and the member's returned
bytes are undefined (modeled none).  Even a 2-byte output such as C3 A9 for
the single unit E9 (e-acute) exactly fills its 2-char buffer, leaving no zero
in bounds for the strlen in throw_away_string - an out-of-bounds read (also
none).  Only outputs strictly shorter than the unit-count allocation stay in
bounds, e.g. a pure-ASCII string, whose bytes do round-trip. -/
theorem C1_throw_away_overflow :
    (string_from_bytes [0xF0, 0x9F, 0x98, 0x80] none).2 = none ∧
    (string_from_bytes [0xF0, 0x9F, 0x98, 0x80] none).1.units = [0xD83D, 0xDE00] ∧
    throw_away_units [0xD83D, 0xDE00] = [0xF0, 0x9F, 0x98, 0x80] ∧
    Str.throw_away (string_from_bytes [0xF0, 0x9F, 0x98, 0x80] none).1 = none ∧
    throw_away_units [0xE9] = [0xC3, 0xA9] ∧
    Str.throw_away (from_units [0xE9] none) = none ∧
    Str.throw_away (from_units [72, 105] none) = some [72, 105] := by decide

end PStd
